import Mathlib

/-!
Verification of the participation-authority subsystem of the zoom-mcp
repository: a shallow embedding of the storage helpers, webhook ingestor,
access-controlled proxy endpoints, admin-credential client and backfill
importer, with theorems checking the stated properties against the code.
-/

namespace ZoomMcp

/-! ## Bytes, UTF-8, SHA-256, HMAC-SHA256

The source calls Node's `crypto` module (`createHash('sha256')`,
`createHmac('sha256', secret)`), always feeding strings (UTF-8 encoded) and
reading hex digests.  We embed the algorithms themselves so every definition
stays executable.  Machine words are `Nat` with explicit `% 2^32`; bit
operations are implemented by structural recursion over a bit-width fuel so
that concrete digests reduce inside the kernel.
-/

/-- UTF-8 encoding of a single code point (as Node's Buffer/crypto use). -/
def utf8Bytes (c : Nat) : List Nat :=
  if c < 0x80 then [c]
  else if c < 0x800 then [0xc0 + c / 0x40, 0x80 + c % 0x40]
  else if c < 0x10000 then
    [0xe0 + c / 0x1000, 0x80 + (c / 0x40) % 0x40, 0x80 + c % 0x40]
  else
    [0xf0 + c / 0x40000, 0x80 + (c / 0x1000) % 0x40,
     0x80 + (c / 0x40) % 0x40, 0x80 + c % 0x40]

/-- The UTF-8 bytes of a string. -/
def strBytes (s : String) : List Nat :=
  (s.data.map (fun c => utf8Bytes c.toNat)).flatten

/-- Exclusive or of the low `width` bits, by structural recursion on the
width so the kernel can reduce it (the xor of two bits is their sum mod 2). -/
def xorW : Nat → Nat → Nat → Nat
  | 0, _, _ => 0
  | k + 1, a, b => (a % 2 + b % 2) % 2 + 2 * xorW k (a / 2) (b / 2)

/-- Bitwise and of the low `width` bits (the and of two bits is their
product). -/
def andW : Nat → Nat → Nat → Nat
  | 0, _, _ => 0
  | k + 1, a, b => a % 2 * (b % 2) + 2 * andW k (a / 2) (b / 2)

/-- 32-bit exclusive or. -/
def xor32 (a b : Nat) : Nat := xorW 32 a b

/-- 32-bit and. -/
def and32 (a b : Nat) : Nat := andW 32 a b

/-- 8-bit exclusive or (HMAC pad bytes). -/
def xor8 (a b : Nat) : Nat := xorW 8 a b

/-- 32-bit right rotation on a `Nat` holding a value `< 2^32`. -/
def rotr32 (n x : Nat) : Nat :=
  x / 2 ^ n + x % 2 ^ n * 2 ^ (32 - n)

/-- 32-bit logical right shift. -/
def shr32 (n x : Nat) : Nat := x / 2 ^ n

/-- 32-bit addition. -/
def add32 (a b : Nat) : Nat := (a + b) % (2 ^ 32)

/-- SHA-256 round constants. -/
def shaK : List Nat :=
  [0x428A2F98, 0x71374491, 0xB5C0FBCF, 0xE9B5DBA5, 0x3956C25B, 0x59F111F1,
   0x923F82A4, 0xAB1C5ED5, 0xD807AA98, 0x12835B01, 0x243185BE, 0x550C7DC3,
   0x72BE5D74, 0x80DEB1FE, 0x9BDC06A7, 0xC19BF174, 0xE49B69C1, 0xEFBE4786,
   0x0FC19DC6, 0x240CA1CC, 0x2DE92C6F, 0x4A7484AA, 0x5CB0A9DC, 0x76F988DA,
   0x983E5152, 0xA831C66D, 0xB00327C8, 0xBF597FC7, 0xC6E00BF3, 0xD5A79147,
   0x06CA6351, 0x14292967, 0x27B70A85, 0x2E1B2138, 0x4D2C6DFC, 0x53380D13,
   0x650A7354, 0x766A0ABB, 0x81C2C92E, 0x92722C85, 0xA2BFE8A1, 0xA81A664B,
   0xC24B8B70, 0xC76C51A3, 0xD192E819, 0xD6990624, 0xF40E3585, 0x106AA070,
   0x19A4C116, 0x1E376C08, 0x2748774C, 0x34B0BCB5, 0x391C0CB3, 0x4ED8AA4A,
   0x5B9CCA4F, 0x682E6FF3, 0x748F82EE, 0x78A5636F, 0x84C87814, 0x8CC70208,
   0x90BEFFFA, 0xA4506CEB, 0xBEF9A3F7, 0xC67178F2]

/-- SHA-256 initial hash value. -/
def shaH0 : List Nat :=
  [0x6A09E667, 0xBB67AE85, 0x3C6EF372, 0xA54FF53A,
   0x510E527F, 0x9B05688C, 0x1F83D9AB, 0x5BE0CD19]

/-- Message padding: append 0x80, zeros to 56 mod 64, then the bit length
as 8 big-endian bytes. -/
def shaPad (msg : List Nat) : List Nat :=
  let l := msg.length
  let z := (64 + 56 - (l + 1) % 64) % 64
  let bitLen := l * 8
  msg ++ [0x80] ++ List.replicate z 0 ++
    [bitLen / 2 ^ 56 % 256, bitLen / 2 ^ 48 % 256, bitLen / 2 ^ 40 % 256,
     bitLen / 2 ^ 32 % 256, bitLen / 2 ^ 24 % 256, bitLen / 2 ^ 16 % 256,
     bitLen / 2 ^ 8 % 256, bitLen % 256]

/-- Split a list into chunks of size `n` (structural in the list, so it
reduces in the kernel); `acc` holds the current chunk reversed. -/
def chunksOfAux (n : Nat) (acc : List α) : List α → List (List α)
  | [] => if acc.isEmpty then [] else [acc.reverse]
  | x :: xs =>
    if acc.length + 1 = n then (acc.reverse ++ [x]) :: chunksOfAux n [] xs
    else chunksOfAux n (x :: acc) xs

/-- Split a list into chunks of size `n` (last chunk may be shorter). -/
def chunksOf (n : Nat) (l : List α) : List (List α) := chunksOfAux n [] l

/-- Four big-endian bytes to a 32-bit word list. -/
def wordsOfBytes (bs : List Nat) : List Nat :=
  (chunksOf 4 bs).map (fun c =>
    c.getD 0 0 * 0x1000000 + c.getD 1 0 * 0x10000 +
    c.getD 2 0 * 0x100 + c.getD 3 0)

/-- Extend the message schedule by `k` further words. -/
def shaScheduleAux : Nat → List Nat → List Nat
  | 0, w => w
  | k + 1, w =>
    let i := w.length
    let w15 := w.getD (i - 15) 0
    let w2 := w.getD (i - 2) 0
    let s0 := xor32 (xor32 (rotr32 7 w15) (rotr32 18 w15)) (shr32 3 w15)
    let s1 := xor32 (xor32 (rotr32 17 w2) (rotr32 19 w2)) (shr32 10 w2)
    let wi := (w.getD (i - 16) 0 + s0 + w.getD (i - 7) 0 + s1) % (2 ^ 32)
    shaScheduleAux k (w ++ [wi])

/-- The 64-word message schedule of one block. -/
def shaSchedule (w : List Nat) : List Nat := shaScheduleAux 48 w

/-- Working state of the compression function. -/
structure ShaState where
  a : Nat
  b : Nat
  c : Nat
  d : Nat
  e : Nat
  f : Nat
  g : Nat
  hh : Nat

/-- One compression round. -/
def shaRound (st : ShaState) (ki wi : Nat) : ShaState :=
  let s1 := xor32 (xor32 (rotr32 6 st.e) (rotr32 11 st.e)) (rotr32 25 st.e)
  let ch := xor32 (and32 st.e st.f) (and32 (xor32 st.e 0xffffffff) st.g)
  let temp1 := (st.hh + s1 + ch + ki + wi) % (2 ^ 32)
  let s0 := xor32 (xor32 (rotr32 2 st.a) (rotr32 13 st.a)) (rotr32 22 st.a)
  let maj := xor32 (xor32 (and32 st.a st.b) (and32 st.a st.c)) (and32 st.b st.c)
  let temp2 := (s0 + maj) % (2 ^ 32)
  ⟨add32 temp1 temp2, st.a, st.b, st.c, add32 st.d temp1, st.e, st.f, st.g⟩

/-- Compress one 64-byte block into the running hash (8 words). -/
def shaCompress (hs : List Nat) (block : List Nat) : List Nat :=
  let w := shaSchedule (wordsOfBytes block)
  let init : ShaState :=
    ⟨hs.getD 0 0, hs.getD 1 0, hs.getD 2 0, hs.getD 3 0,
     hs.getD 4 0, hs.getD 5 0, hs.getD 6 0, hs.getD 7 0⟩
  let fin := (List.zip shaK w).foldl (fun st p => shaRound st p.1 p.2) init
  [add32 (hs.getD 0 0) fin.a, add32 (hs.getD 1 0) fin.b,
   add32 (hs.getD 2 0) fin.c, add32 (hs.getD 3 0) fin.d,
   add32 (hs.getD 4 0) fin.e, add32 (hs.getD 5 0) fin.f,
   add32 (hs.getD 6 0) fin.g, add32 (hs.getD 7 0) fin.hh]

/-- SHA-256 of a byte list, as 32 bytes. -/
def sha256 (msg : List Nat) : List Nat :=
  let final := (chunksOf 64 (shaPad msg)).foldl shaCompress shaH0
  (final.map (fun w =>
    [w / 2 ^ 24 % 256, w / 2 ^ 16 % 256, w / 2 ^ 8 % 256, w % 256])).flatten

/-- Lowercase hex digit. -/
def hexChar (n : Nat) : Char :=
  if n < 10 then Char.ofNat (48 + n) else Char.ofNat (87 + n)

/-- Lowercase hex encoding of bytes (Node's `digest('hex')`). -/
def hexOfBytes (bs : List Nat) : String :=
  String.mk ((bs.map (fun b => [hexChar (b / 16), hexChar (b % 16)])).flatten)

/-- Model of `createHash('sha256').update(s).digest('hex')`. -/
def sha256HexOfString (s : String) : String :=
  hexOfBytes (sha256 (strBytes s))

/-- HMAC-SHA256 over byte lists (block size 64). -/
def hmacSha256 (key msg : List Nat) : List Nat :=
  let k0 := if key.length > 64 then sha256 key else key
  let kp := k0 ++ List.replicate (64 - k0.length) 0
  let ipad := kp.map (fun b => xor8 b 0x36)
  let opad := kp.map (fun b => xor8 b 0x5c)
  sha256 (opad ++ sha256 (ipad ++ msg))

/-- Model of `createHmac('sha256', key).update(msg).digest('hex')`. -/
def hmacSha256Hex (key msg : String) : String :=
  hexOfBytes (hmacSha256 (strBytes key) (strBytes msg))

/-! ## JavaScript semantics helpers

The handlers are written in TypeScript; a few JS idioms recur: truthiness
of optional strings (`undefined`, `null` and `""` are falsy), `x || dflt`,
`parseInt(s, 10)` (`none` models `NaN`), `s.toLowerCase()` and
`s.split(sep)`.  All are defined by structural recursion so they reduce in
the kernel.
-/

/-- Truthiness of an optional string: `undefined` and `""` are falsy. -/
def jsTruthyS (o : Option String) : Bool :=
  match o with
  | none => false
  | some s => !s.isEmpty

/-- Model of `o || dflt` for an optional string. -/
def jsOrS (o : Option String) (dflt : String) : String :=
  if jsTruthyS o then o.getD dflt else dflt

/-- Model of `o || dflt` for an optional number (`0` is falsy in JS). -/
def jsOrN (o : Option Nat) (dflt : Nat) : Nat :=
  match o with
  | none => dflt
  | some n => if n = 0 then dflt else n

/-- Numeric value of a decimal digit prefix; `none` when there is none. -/
def parseDigits (cs : List Char) : Option Nat :=
  let ds := cs.takeWhile Char.isDigit
  if ds.isEmpty then none
  else some (ds.foldl (fun a c => a * 10 + (c.toNat - 48)) 0)

/-- Model of `parseInt(s, 10)`: skip leading spaces, optional sign, then a decimal
digit prefix; `none` models `NaN`. -/
def parseIntStr (s : String) : Option Int :=
  match s.data.dropWhile (fun c => c = ' ' ∨ c = '\t' ∨ c = '\n') with
  | '-' :: rest => (parseDigits rest).map (fun n => -(n : Int))
  | '+' :: rest => (parseDigits rest).map (fun n => (n : Int))
  | rest => (parseDigits rest).map (fun n => (n : Int))

/-- ASCII lowercase of one character (`String.prototype.toLowerCase` for
the ASCII range, which covers the emails and tokens handled here). -/
def lowerChar (c : Char) : Char :=
  if 'A' ≤ c ∧ c ≤ 'Z' then Char.ofNat (c.toNat + 32) else c

/-- Model of `s.toLowerCase()` (ASCII range). -/
def lowerStr (s : String) : String := String.mk (s.data.map lowerChar)

/-- Model of `s.slice(0, n)` for the ASCII strings used here. -/
def strTake (n : Nat) (s : String) : String := String.mk (s.data.take n)

/-- Model of `s.split(sep)` on a single-character separator, JS semantics
(`"".split(' ') = [""]`). -/
def splitCharAux (sep : Char) (cur : List Char) : List Char → List String
  | [] => [String.mk cur.reverse]
  | c :: cs =>
    if c = sep then String.mk cur.reverse :: splitCharAux sep [] cs
    else splitCharAux sep (c :: cur) cs

/-- Model of `s.split(sep)` for a one-character separator. -/
def splitChar (sep : Char) (s : String) : List String :=
  splitCharAux sep [] s.data

/-- Model of `email.split('@')[0]`. -/
def emailLocalPart (e : String) : String := (splitChar '@' e).getD 0 ""

/-! ## Data model (`cloud-functions/src/types.ts`)

`MeetingParticipantRecord` is the ledger's entity; the ledger itself
(Firestore collection `meeting_participants`) is modelled as an
insertion-ordered association list from document id to record, since
Firestore's `doc(id).set` is an upsert keyed by the document id.
-/

/-- Provenance tag of a participation record. -/
inductive RecordSource where
  | webhook
  | backfill
  | preregistration
  | manualGrant
deriving DecidableEq, Repr

/-- One ledger entry (`MeetingParticipantRecord` in `types.ts`). -/
structure MeetingParticipantRecord where
  instance_uuid : String
  meeting_id : String
  topic : String
  host_email : Option String
  start_time : String
  end_time : String
  duration_minutes : Nat
  participant_email : String
  participant_name : String
  has_summary : Bool
  has_recording : Bool
  indexed_at : String
  source : RecordSource
deriving DecidableEq, Repr

/-- The `meeting_participants` collection: document id ↦ record. -/
abbrev Ledger : Type := List (String × MeetingParticipantRecord)

/-! ## Firestore helpers (`cloud-functions/src/utils/firestore.ts`) -/

/-- Model of `generateDocumentId`: `{sanitized_instance_uuid}_{sha256(email).slice(0,8)}`,
with `/` in the uuid replaced by `_` and the email lowercased before
hashing. -/
def generateDocumentId (instanceUuid email : String) : String :=
  let sanitizedUuid :=
    String.mk (instanceUuid.data.map (fun c => if c = '/' then '_' else c))
  let emailHash := strTake 8 (sha256HexOfString (lowerStr email))
  sanitizedUuid ++ "_" ++ emailHash

/-- Keyed upsert into an insertion-ordered association list: replace the
value under the key if present, append otherwise.  This is both the
effect of `doc(docId).set(record)` on the Firestore collection and of
`Map.set` on a JS `Map`. -/
def assocSet (l : List (String × β)) (k : String) (v : β) :
    List (String × β) :=
  if l.any (fun e => e.1 == k) then
    l.map (fun e => if e.1 == k then (k, v) else e)
  else l ++ [(k, v)]

/-- The effect of `doc(docId).set(record)`. -/
def ledgerSet (l : Ledger) (docId : String) (r : MeetingParticipantRecord) :
    Ledger :=
  assocSet l docId r

/-- Model of `createParticipantRecordsBatch`: batched writes, 500 per batch; each
batch sets `doc(generateDocumentId(uuid, email))` for its records in
order. -/
def createParticipantRecordsBatch (l : Ledger)
    (records : List MeetingParticipantRecord) : Ledger :=
  (chunksOf 500 records).foldl
    (fun acc chunk =>
      chunk.foldl
        (fun acc2 r =>
          ledgerSet acc2
            (generateDocumentId r.instance_uuid r.participant_email) r)
        acc)
    l

/-- Model of `participantRecordExists`: point lookup by the derived document id. -/
def participantRecordExists (l : Ledger) (instanceUuid email : String) :
    Bool :=
  l.any (fun e => e.1 == generateDocumentId instanceUuid email)

/-- Model of `checkParticipation`: lookup with the email lowercased. -/
def checkParticipation (l : Ledger) (instanceUuid email : String) : Bool :=
  participantRecordExists l instanceUuid (lowerStr email)

/-- Number of ledger entries stored under a given document id. -/
def countKey (l : Ledger) (k : String) : Nat :=
  l.countP (fun e => e.1 == k)

/-- The `where('start_time', '<', cutoffIso)` predicate of the cleanup
query (Firestore compares the ISO-8601 strings lexicographically). -/
def recOlder (cutoffIso : String) (e : String × MeetingParticipantRecord) :
    Bool :=
  decide (e.2.start_time < cutoffIso)

/-- Delete the first `n` list entries satisfying `p` — the effect of one
batched delete of the (up to 500) documents returned by the limited
query. -/
def removeFirstWhere (p : α → Bool) : Nat → List α → List α
  | _, [] => []
  | 0, l => l
  | n + 1, x :: xs =>
    if p x then removeFirstWhere p n xs
    else x :: removeFirstWhere p (n + 1) xs

/-- The `while (hasMore)` loop of `deleteOldRecords`, embedded with a
fuel argument so the recursion is structural: each pass queries up to 500
records with `start_time < cutoff`, deletes them in a batch, and stops
when a query returns fewer than 500 (or none).  Every pass that continues
has removed 500 entries, so fuel `l.length + 1` is never exhausted (the
spec theorem proves the loop's result is fuel-independent from there). -/
def deleteOldRecordsLoop (cutoffIso : String) : Nat → Ledger → Nat × Ledger
  | 0, l => (0, l)
  | fuel + 1, l =>
    let snap := (l.filter (recOlder cutoffIso)).take 500
    if snap.length = 0 then (0, l)
    else
      let l2 := removeFirstWhere (recOlder cutoffIso) 500 l
      if snap.length < 500 then (snap.length, l2)
      else
        let r := deleteOldRecordsLoop cutoffIso fuel l2
        (snap.length + r.1, r.2)

/-- Model of `deleteOldRecords`: bulk delete of all records with
`start_time < cutoff`; returns the total deleted and the remaining
ledger. -/
def deleteOldRecords (cutoffIso : String) (l : Ledger) : Nat × Ledger :=
  deleteOldRecordsLoop cutoffIso (l.length + 1) l

/-! ## Webhook validation (`cloud-functions/src/utils/webhook-validation.ts`) -/

/-- Model of `validateWebhookSignature`: absent/empty headers fail; a timestamp more
than 5 minutes from `now` fails (a non-numeric timestamp parses to `NaN`,
whose comparison with 300 is `false` in JS, so it passes this check); the
expected signature is `'v0=' + HMAC-SHA256('v0:{timestamp}:{raw_body}',
secret)` and the provided one must equal it byte for byte (the code's
`Buffer` length guard plus `timingSafeEqual`). -/
def validateWebhookSignature (signature timestamp : Option String)
    (rawBody secretToken : String) (nowSec : Int) : Bool :=
  match signature, timestamp with
  | some sig, some ts =>
    if sig.isEmpty || ts.isEmpty then false
    else
      let tooOld :=
        match parseIntStr ts with
        | some t => decide ((nowSec - t).natAbs > 5 * 60)
        | none => false
      if tooOld then false
      else
        let message := "v0:" ++ ts ++ ":" ++ rawBody
        let expected := "v0=" ++ hmacSha256Hex secretToken message
        if (strBytes sig).length ≠ (strBytes expected).length then false
        else sig == expected
  | _, _ => false

/-- The `{plainToken, encryptedToken}` reply to the URL-validation
challenge. -/
structure ValidationResponse where
  plainToken : String
  encryptedToken : String
deriving DecidableEq, Repr

/-- Model of `createValidationResponse`: echo the token and its HMAC-SHA256 hex
digest under the webhook secret. -/
def createValidationResponse (plainToken secretToken : String) :
    ValidationResponse :=
  { plainToken := plainToken
    encryptedToken := hmacSha256Hex secretToken plainToken }

/-! ## Webhook handler (`cloud-functions/src/webhook-handler.ts`) -/

/-- A participant entry of the `meeting.ended` payload. -/
structure ZoomWebhookParticipant where
  email : Option String
  user_name : Option String
deriving DecidableEq, Repr

/-- Model of `event.payload.object` of a `meeting.ended` event (`String(meeting.id)`
is already applied, so `id` is a string here). -/
structure ZoomMeetingObject where
  uuid : String
  id : String
  topic : String
  host_email : Option String
  user_name : Option String
  start_time : String
  end_time : Option String
  duration : Option Nat
  participant : Option (List ZoomWebhookParticipant)
deriving DecidableEq, Repr

/-- The event payload: the URL-validation token and the meeting object. -/
structure ZoomWebhookPayload where
  plainToken : Option String
  object : ZoomMeetingObject
deriving DecidableEq, Repr

/-- An inbound webhook event. -/
structure ZoomWebhookEvent where
  event : String
  payload : ZoomWebhookPayload
deriving DecidableEq, Repr

/-- The handler's per-participant accumulator entry. -/
structure ParticipantInfo where
  email : String
  name : String
  is_host : Bool
deriving DecidableEq, Repr

/-- Model of `Map.set`: replace in place when the key exists, append otherwise
(JS `Map` preserves insertion order). -/
def mapSet (m : List (String × ParticipantInfo)) (k : String)
    (v : ParticipantInfo) : List (String × ParticipantInfo) :=
  assocSet m k v

/-- Model of `Map.get`. -/
def mapGet (m : List (String × ParticipantInfo)) (k : String) :
    Option ParticipantInfo :=
  (m.find? (fun e => e.1 == k)).map (fun e => e.2)

/-- A participant row of the Zoom `past_meetings/{uuid}/participants`
response. -/
structure ZoomApiParticipant where
  user_email : Option String
  name : Option String
deriving DecidableEq, Repr

/-- The `past_meetings/{uuid}/participants` response body. -/
structure ZoomParticipantsResponse where
  participants : List ZoomApiParticipant
deriving DecidableEq, Repr

/-- The `past_meetings/{uuid}` response fields the handler reads. -/
structure PastMeetingDetails where
  end_time : Option String
  duration : Option Nat
  host_email : Option String
deriving DecidableEq, Repr

/-- Seeding the participant map: "Always add the host first (they should
always have access)" — guarded by the payload actually carrying a truthy
`host_email`. -/
def seedHost (meeting : ZoomMeetingObject) :
    List (String × ParticipantInfo) :=
  match meeting.host_email with
  | some he =>
    if he.isEmpty then []
    else
      mapSet [] (lowerStr he)
        ⟨lowerStr he, jsOrS meeting.user_name "Host", true⟩
  | none => []

/-- One iteration of the loop over the payload's attendee list: entries
with a truthy email are upserted under the lowercased email, keeping an
existing entry's `is_host`. -/
def webhookParticipantStep (m : List (String × ParticipantInfo))
    (p : ZoomWebhookParticipant) : List (String × ParticipantInfo) :=
  match p.email with
  | some e =>
    if e.isEmpty then m
    else
      let email := lowerStr e
      let existing := mapGet m email
      mapSet m email
        ⟨email, jsOrS p.user_name (emailLocalPart email),
         (existing.map (fun x => x.is_host)).getD false⟩
  | none => m

/-- One iteration of the loop over the admin API's attendee list. -/
def apiParticipantStep (m : List (String × ParticipantInfo))
    (p : ZoomApiParticipant) : List (String × ParticipantInfo) :=
  match p.user_email with
  | some e =>
    if e.isEmpty then m
    else
      let email := lowerStr e
      let existing := mapGet m email
      mapSet m email
        ⟨email, jsOrS p.name (emailLocalPart email),
         (existing.map (fun x => x.is_host)).getD false⟩
  | none => m

/-- The participant-collection phase of `processMeetingEnded`: seed the
map with the host (when the payload carries a truthy `host_email`), merge
the payload's attendee list, then merge the authoritative list from the
admin API when that call succeeded. -/
def collectParticipants (meeting : ZoomMeetingObject)
    (apiParticipants : Except Unit ZoomParticipantsResponse) :
    List (String × ParticipantInfo) :=
  let m2 :=
    (meeting.participant.getD []).foldl webhookParticipantStep
      (seedHost meeting)
  match apiParticipants with
  | .error _ => m2
  | .ok resp => resp.participants.foldl apiParticipantStep m2

/-- Model of `processMeetingEnded`: collect the deduplicated participant set,
backfill metadata from `getPastMeeting` when it succeeds (falling back to
webhook-supplied values), build one `webhook`-tagged record per
participant and batch-upsert them.  `apiParticipants` and
`meetingDetails` are the outcomes of the two admin-API calls; `nowIso` is
`new Date().toISOString()`.  Returns the ledger after the batch write. -/
def processMeetingEnded (event : ZoomWebhookEvent)
    (apiParticipants : Except Unit ZoomParticipantsResponse)
    (meetingDetails : Except Unit PastMeetingDetails)
    (nowIso : String) (ledger : Ledger) : Ledger :=
  let meeting := event.payload.object
  let instanceUuid := meeting.uuid
  let meetingId := meeting.id
  let participants := collectParticipants meeting apiParticipants
  let endTime0 := jsOrS meeting.end_time nowIso
  let duration0 := jsOrN meeting.duration 0
  let hostEmail0 := meeting.host_email
  let meta :=
    match meetingDetails with
    | .ok d =>
      (true, true, jsOrS d.end_time endTime0, jsOrN d.duration duration0,
       if !jsTruthyS hostEmail0 && jsTruthyS d.host_email then d.host_email
       else hostEmail0)
    | .error _ => (false, false, endTime0, duration0, hostEmail0)
  let records : List MeetingParticipantRecord :=
    participants.map (fun e =>
      { instance_uuid := instanceUuid
        meeting_id := meetingId
        topic := meeting.topic
        host_email := meta.2.2.2.2
        start_time := meeting.start_time
        end_time := meta.2.2.1
        duration_minutes := meta.2.2.2.1
        participant_email := e.2.email
        participant_name := e.2.name
        has_summary := meta.1
        has_recording := meta.2.1
        indexed_at := nowIso
        source := RecordSource.webhook })
  createParticipantRecordsBatch ledger records

/-- The webhook handler's response, one constructor per exit point. -/
inductive WebhookResult where
  | methodNotAllowed
  | configError
  | invalidSignature
  | challenge (resp : ValidationResponse)
  | missingPlainToken
  | processed
  | ignored
deriving DecidableEq, Repr

/-- The HTTP status each webhook exit sets (processing failures of the
storage backend are outside this pure model, so the 500 path of
`meeting.ended` does not arise). -/
def WebhookResult.status : WebhookResult → Nat
  | .methodNotAllowed => 405
  | .configError => 500
  | .invalidSignature => 401
  | .challenge _ => 200
  | .missingPlainToken => 400
  | .processed => 200
  | .ignored => 200

/-- Model of `handleWebhook`: method gate, configuration gate, signature
validation (over the serialized body `rawBody`), then the URL-validation
challenge, `meeting.ended` processing, or acknowledgement of unknown
events.  Returns the response and the ledger afterwards. -/
def handleWebhook (secretToken : Option String) (method : String)
    (rawBody : String) (signature timestamp : Option String)
    (event : ZoomWebhookEvent) (nowSec : Int)
    (apiParticipants : Except Unit ZoomParticipantsResponse)
    (meetingDetails : Except Unit PastMeetingDetails)
    (nowIso : String) (ledger : Ledger) : WebhookResult × Ledger :=
  if method ≠ "POST" then (.methodNotAllowed, ledger)
  else if !jsTruthyS secretToken then (.configError, ledger)
  else
    let secret := secretToken.getD ""
    if !validateWebhookSignature signature timestamp rawBody secret nowSec
    then (.invalidSignature, ledger)
    else if event.event == "endpoint.url_validation" then
      if jsTruthyS event.payload.plainToken then
        (.challenge
          (createValidationResponse (event.payload.plainToken.getD "")
            secret), ledger)
      else (.missingPlainToken, ledger)
    else if event.event == "meeting.ended" then
      (.processed,
       processMeetingEnded event apiParticipants meetingDetails nowIso
         ledger)
    else (.ignored, ledger)

/-! ## Token validation (`cloud-functions/src/utils/validate-token.ts`) -/

/-- The `/users/me` response body (`role_id` arrives as a string). -/
structure ZoomUserMeResponse where
  email : String
  role_id : String
deriving DecidableEq, Repr

/-- Outcome of the `/users/me` HTTP exchange for the caller's bearer
token: status plus (when 2xx) the parsed body. -/
structure UsersMeResult where
  status : Nat
  user : ZoomUserMeResponse
deriving DecidableEq, Repr

/-- Model of `response.ok`: status in 200–299. -/
def httpOk (status : Nat) : Bool := 200 ≤ status && status < 300

/-- The validated caller: email, numeric role (none models `NaN`) and the
derived privilege flag. -/
structure UserInfo where
  email : String
  role_id : Option Int
  isAdmin : Bool
deriving DecidableEq, Repr

/-- Model of `validateUserToken`: non-2xx throws (401 distinctly); otherwise
`role_id` is parsed and owners (0) / admins (1) get `isAdmin` (a
non-numeric role compares `NaN <= 1` false). -/
def validateUserToken (resp : UsersMeResult) : Except String UserInfo :=
  if !httpOk resp.status then
    if resp.status = 401 then .error "Invalid or expired token"
    else .error "Failed to validate token"
  else
    let roleId := parseIntStr resp.user.role_id
    .ok
      { email := resp.user.email
        role_id := roleId
        isAdmin := match roleId with
                   | some r => decide (r ≤ 1)
                   | none => false }

/-- Model of `extractBearerToken`: `Bearer <token>` (scheme case-insensitive),
`null` otherwise. -/
def extractBearerToken (authHeader : Option String) : Option String :=
  match authHeader with
  | none => none
  | some h =>
    if h.isEmpty then none
    else
      let parts := splitChar ' ' h
      if parts.length ≠ 2 || lowerStr (parts.getD 0 "") ≠ "bearer" then none
      else some (parts.getD 1 "")

/-! ## Proxy endpoints (`get-summary.ts`, `get-transcript.ts`,
`list-meetings.ts`)

The admin-API fetches are pure inputs: `Except Nat α` carries the payload
on success and the HTTP status on failure (the handlers' catch blocks
test the thrown message for `'404'`, which the admin client interpolates
from the response status, so a failing status of 404 models the
message-based test).  Summary payloads are opaque here: no claim depends
on their shape.
-/

/-- A request body carrying the target occurrence. -/
structure GetContentRequest where
  instance_uuid : Option String
deriving DecidableEq, Repr

/-- Exit points of `handleGetSummary`. -/
inductive GetSummaryResult where
  | missingAuthHeader
  | invalidToken
  | missingUuid
  | accessDenied
  | summaryNotFound
  | summaryError
  | ok (summary : String)
deriving DecidableEq, Repr

/-- HTTP status of each `handleGetSummary` exit. -/
def GetSummaryResult.toStatus : GetSummaryResult → Nat
  | .missingAuthHeader => 401
  | .invalidToken => 401
  | .missingUuid => 400
  | .accessDenied => 403
  | .summaryNotFound => 404
  | .summaryError => 500
  | .ok _ => 200

/-- Whether a `handleGetSummary` response carries meeting content. -/
def GetSummaryResult.hasContent : GetSummaryResult → Bool
  | .ok _ => true
  | _ => false

/-- Model of `handleGetSummary`: bearer extraction, token validation, parameter
check, then the participation check (skipped for admins) and the summary
fetch with 404/500 mapping. -/
def handleGetSummary (authHeader : Option String) (usersMe : UsersMeResult)
    (body : GetContentRequest) (ledger : Ledger)
    (fetchSummary : Except Nat String) : GetSummaryResult :=
  match extractBearerToken authHeader with
  | none => .missingAuthHeader
  | some _ =>
    match validateUserToken usersMe with
    | .error _ => .invalidToken
    | .ok userInfo =>
      if !jsTruthyS body.instance_uuid then .missingUuid
      else
        let uuid := body.instance_uuid.getD ""
        if !userInfo.isAdmin &&
            !checkParticipation ledger uuid userInfo.email then
          .accessDenied
        else
          match fetchSummary with
          | .ok s => .ok s
          | .error status =>
            if status = 404 then .summaryNotFound else .summaryError

/-- A recording file entry of the recordings response. -/
structure RecordingFile where
  file_type : String
  file_extension : String
  download_url : Option String
deriving DecidableEq, Repr

/-- The `meetings/{uuid}/recordings` response body. -/
structure ZoomRecordingResponse where
  recording_files : Option (List RecordingFile)
deriving DecidableEq, Repr

/-- Exit points of `handleGetTranscript`; the transcript text carried by
the success constructors is the raw upstream content (VTT parsing and the
summary-to-prose reshaping are pure formatting that no claim touches). -/
inductive GetTranscriptResult where
  | missingAuthHeader
  | invalidToken
  | missingUuid
  | accessDenied
  | transcriptNotFound
  | transcriptError
  | okRecording (transcript : String)
  | okAiSummary (transcript : String)
deriving DecidableEq, Repr

/-- HTTP status of each `handleGetTranscript` exit. -/
def GetTranscriptResult.toStatus : GetTranscriptResult → Nat
  | .missingAuthHeader => 401
  | .invalidToken => 401
  | .missingUuid => 400
  | .accessDenied => 403
  | .transcriptNotFound => 404
  | .transcriptError => 500
  | .okRecording _ => 200
  | .okAiSummary _ => 200

/-- Whether a `handleGetTranscript` response carries meeting content. -/
def GetTranscriptResult.hasContent : GetTranscriptResult → Bool
  | .okRecording _ => true
  | .okAiSummary _ => true
  | _ => false

/-- Model of `handleGetTranscript`: same authentication and participation gate as
`handleGetSummary`; then try the recording's caption file (any failure or
absence falls through) and fall back to the AI summary with 404/500
mapping. -/
def handleGetTranscript (authHeader : Option String)
    (usersMe : UsersMeResult) (body : GetContentRequest) (ledger : Ledger)
    (recordings : Except Nat ZoomRecordingResponse)
    (download : Except Nat String) (fetchSummary : Except Nat String) :
    GetTranscriptResult :=
  match extractBearerToken authHeader with
  | none => .missingAuthHeader
  | some _ =>
    match validateUserToken usersMe with
    | .error _ => .invalidToken
    | .ok userInfo =>
      if !jsTruthyS body.instance_uuid then .missingUuid
      else
        let uuid := body.instance_uuid.getD ""
        if !userInfo.isAdmin &&
            !checkParticipation ledger uuid userInfo.email then
          .accessDenied
        else
          let fromRecording :=
            match recordings with
            | .error _ => none
            | .ok resp =>
              match (resp.recording_files.getD []).find?
                  (fun f =>
                    f.file_type == "TRANSCRIPT" ||
                    f.file_extension == "VTT") with
              | none => none
              | some f =>
                if jsTruthyS f.download_url then
                  match download with
                  | .ok vtt => some (GetTranscriptResult.okRecording vtt)
                  | .error _ => none
                else none
          match fromRecording with
          | some r => r
          | none =>
            match fetchSummary with
            | .ok s => .okAiSummary s
            | .error status =>
              if status = 404 then .transcriptNotFound
              else .transcriptError

/-- The list-meetings request body. -/
structure ListMeetingsRequest where
  from_date : Option String
  to_date : Option String
  limit : Option Nat
  user_email : Option String
  all_meetings : Option Bool
deriving DecidableEq, Repr

/-- One row of the list-meetings response. -/
structure MeetingListItem where
  instance_uuid : String
  meeting_id : String
  topic : String
  date : String
  duration_minutes : Nat
  host_email : Option String
  has_summary : Bool
  has_recording : Bool
deriving DecidableEq, Repr

/-- The response row built from a ledger record. -/
def toListItem (r : MeetingParticipantRecord) : MeetingListItem :=
  { instance_uuid := r.instance_uuid
    meeting_id := r.meeting_id
    topic := r.topic
    date := r.start_time
    duration_minutes := r.duration_minutes
    host_email := r.host_email
    has_summary := r.has_summary
    has_recording := r.has_recording }

/-- Keep the first row per `instance_uuid` (the handlers' `seenUuids`
dedup). -/
def dedupeByUuid (seen : List String) :
    List MeetingParticipantRecord → List MeetingListItem
  | [] => []
  | r :: rs =>
    if seen.contains r.instance_uuid then dedupeByUuid seen rs
    else toListItem r :: dedupeByUuid (r.instance_uuid :: seen) rs

/-- The dedup of `queryAllMeetings`, which additionally stops once `lim`
rows have been emitted. -/
def dedupeByUuidCapped (lim : Nat) (seen : List String) :
    List MeetingParticipantRecord → List MeetingListItem
  | [] => []
  | r :: rs =>
    if lim = 0 then []
    else if seen.contains r.instance_uuid then
      dedupeByUuidCapped lim seen rs
    else
      toListItem r ::
        dedupeByUuidCapped (lim - 1) (r.instance_uuid :: seen) rs

/-- Model of `new Date(d).toISOString()` for a well-formed `YYYY-MM-DD` string. -/
def dateStartIso (d : String) : String := d ++ "T00:00:00.000Z"

/-- Model of `new Date(d + 'T23:59:59.999Z').toISOString()`. -/
def dateEndIso (d : String) : String := d ++ "T23:59:59.999Z"

/-- Model of `queryMeetingsByEmail`: records of the lowercased email whose
`start_time` lies in the inclusive ISO range, newest first (Firestore's
`orderBy('start_time', 'desc')`), fetched with `limit`, then deduplicated
by occurrence. -/
def queryMeetingsByEmail (l : Ledger) (email fromDate toDate : String)
    (lim : Nat) : List MeetingListItem :=
  let fromIso := dateStartIso fromDate
  let toIso := dateEndIso toDate
  let rows :=
    (l.map (fun e => e.2)).filter (fun r =>
      r.participant_email == lowerStr email &&
      decide (fromIso ≤ r.start_time) && decide (r.start_time ≤ toIso))
  let sorted := rows.mergeSort (fun a b => decide (b.start_time ≤ a.start_time))
  dedupeByUuid [] (sorted.take lim)

/-- Model of `queryAllMeetings`: as above without the participant filter; the code
fetches `limit * 10` rows (to survive the dedup) and stops emitting at
`limit`. -/
def queryAllMeetings (l : Ledger) (fromDate toDate : String) (lim : Nat) :
    List MeetingListItem :=
  let fromIso := dateStartIso fromDate
  let toIso := dateEndIso toDate
  let rows :=
    (l.map (fun e => e.2)).filter (fun r =>
      decide (fromIso ≤ r.start_time) && decide (r.start_time ≤ toIso))
  let sorted := rows.mergeSort (fun a b => decide (b.start_time ≤ a.start_time))
  dedupeByUuidCapped lim [] (sorted.take (lim * 10))

/-- Exit points of `handleListMeetings`. -/
inductive ListMeetingsResult where
  | missingAuthHeader
  | invalidToken
  | adminRequiredForUser
  | adminRequiredForAll
  | ok (meetings : List MeetingListItem)
deriving DecidableEq, Repr

/-- HTTP status of each `handleListMeetings` exit. -/
def ListMeetingsResult.toStatus : ListMeetingsResult → Nat
  | .missingAuthHeader => 401
  | .invalidToken => 401
  | .adminRequiredForUser => 403
  | .adminRequiredForAll => 403
  | .ok _ => 200

/-- Whether a `handleListMeetings` response carries meeting rows. -/
def ListMeetingsResult.hasContent : ListMeetingsResult → Bool
  | .ok _ => true
  | _ => false

/-- Model of `handleListMeetings`: authenticate, default the date range (trailing
30 days: `todayDate`/`thirtyAgoDate` are the precomputed `YYYY-MM-DD`
strings) and the limit (50), then resolve the query scope: a truthy
`user_email` or `all_meetings` requires admin, otherwise the caller's own
lowercased email. -/
def handleListMeetings (authHeader : Option String)
    (usersMe : UsersMeResult) (params : ListMeetingsRequest)
    (todayDate thirtyAgoDate : String) (ledger : Ledger) :
    ListMeetingsResult :=
  match extractBearerToken authHeader with
  | none => .missingAuthHeader
  | some _ =>
    match validateUserToken usersMe with
    | .error _ => .invalidToken
    | .ok userInfo =>
      let toDate := jsOrS params.to_date todayDate
      let fromDate := jsOrS params.from_date thirtyAgoDate
      let lim := jsOrN params.limit 50
      if jsTruthyS params.user_email then
        if !userInfo.isAdmin then .adminRequiredForUser
        else
          .ok (queryMeetingsByEmail ledger (params.user_email.getD "")
            fromDate toDate lim)
      else if (params.all_meetings.getD false) then
        if !userInfo.isAdmin then .adminRequiredForAll
        else .ok (queryAllMeetings ledger fromDate toDate lim)
      else
        .ok (queryMeetingsByEmail ledger userInfo.email fromDate toDate lim)

/-! ## Admin-credential client (`cloud-functions/src/utils/admin-client.ts`)

`getAdminToken` keeps a module-level `cachedToken`/`tokenExpiry` pair.  The
sequential model passes that cache explicitly; the outcome of the
Server-to-Server OAuth exchange is the input `exchange`.  The second
component of the result counts the token-exchange HTTP requests the call
issued (0 on a cache hit, 1 otherwise).
-/

/-- The module-level token cache (`cachedToken`, `tokenExpiry`). -/
structure TokenCache where
  cachedToken : Option String
  tokenExpiry : Int
deriving DecidableEq, Repr

/-- The three admin environment variables. -/
structure AdminCreds where
  accountId : String
  clientId : String
  clientSecret : String
deriving DecidableEq, Repr

/-- The token endpoint's success body. -/
structure OAuthTokenResponse where
  access_token : String
  expires_in : Int
deriving DecidableEq, Repr

/-- The cache-validity test of `getAdminToken`: a truthy cached token
whose expiry is more than 5 minutes away. -/
def tokenCacheValid (now : Int) (cache : TokenCache) : Bool :=
  jsTruthyS cache.cachedToken && decide (cache.tokenExpiry > now + 5 * 60 * 1000)

/-- Model of `getAdminToken`: return the cached token while it is valid, otherwise
require credentials and run one client-credentials exchange, caching the
result.  The `Nat` counts exchange requests issued by this call. -/
def getAdminToken (creds : Option AdminCreds) (now : Int)
    (cache : TokenCache) (exchange : Except Nat OAuthTokenResponse) :
    Except String (String × TokenCache) × Nat :=
  if tokenCacheValid now cache then (.ok (cache.cachedToken.getD "", cache), 0)
  else
    match creds with
    | none => (.error "Missing Zoom admin credentials in environment", 0)
    | some _ =>
      match exchange with
      | .error status =>
        (.error ("Failed to get admin token: " ++ toString status), 1)
      | .ok d =>
        (.ok (d.access_token,
          { cachedToken := some d.access_token
            tokenExpiry := now + d.expires_in * 1000 }), 1)

/-- Interleaving model of two concurrent `getAdminToken` calls in one
process.  Each caller runs the function's two visible phases: the
synchronous cache check (lines up to the early return), then — when the
check failed — the suspended `await fetch` of the token exchange, and
finally the cache write on resumption.  `fetching` marks a caller with a
token-exchange request in flight. -/
inductive CallerPc where
  | ready
  | fetching
  | finished
deriving DecidableEq, Repr

/-- Shared cache plus each caller's program counter. -/
structure TokenRaceState where
  cache : TokenCache
  pcA : CallerPc
  pcB : CallerPc
deriving DecidableEq, Repr

/-- One interleaved step of the two callers: a cache-hit return, a
cache-miss entering the exchange, or the completion of an in-flight
exchange writing the shared cache. -/
inductive tokenStep (now : Int) (resp : OAuthTokenResponse) :
    TokenRaceState → TokenRaceState → Prop where
  | hitA (c : TokenCache) (b : CallerPc) :
      tokenCacheValid now c = true →
      tokenStep now resp ⟨c, .ready, b⟩ ⟨c, .finished, b⟩
  | missA (c : TokenCache) (b : CallerPc) :
      tokenCacheValid now c = false →
      tokenStep now resp ⟨c, .ready, b⟩ ⟨c, .fetching, b⟩
  | doneA (c : TokenCache) (b : CallerPc) :
      tokenStep now resp ⟨c, .fetching, b⟩
        ⟨⟨some resp.access_token, now + resp.expires_in * 1000⟩, .finished, b⟩
  | hitB (c : TokenCache) (a : CallerPc) :
      tokenCacheValid now c = true →
      tokenStep now resp ⟨c, a, .ready⟩ ⟨c, a, .finished⟩
  | missB (c : TokenCache) (a : CallerPc) :
      tokenCacheValid now c = false →
      tokenStep now resp ⟨c, a, .ready⟩ ⟨c, a, .fetching⟩
  | doneB (c : TokenCache) (a : CallerPc) :
      tokenStep now resp ⟨c, a, .fetching⟩
        ⟨⟨some resp.access_token, now + resp.expires_in * 1000⟩, a, .finished⟩

/-- Outcome of one admin-API fetch: the successful body or a thrown
error message, the number of requests made to that endpoint, and the
number of token-exchange requests issued.  `net i` is the response the
platform gives to the `i`-th request of this operation. -/
def adminFetchResult : Type := Except String String × Nat × Nat

/-- Model of `getPastMeeting`: acquire a token, issue one request, throw on any
non-2xx status. -/
def getPastMeeting (creds : Option AdminCreds) (now : Int)
    (cache : TokenCache) (exchange : Except Nat OAuthTokenResponse)
    (net : Nat → Nat × String) : adminFetchResult :=
  let t := getAdminToken creds now cache exchange
  match t.1 with
  | .error e => (.error e, 0, t.2)
  | .ok _ =>
    let r := net 0
    if httpOk r.1 then (.ok r.2, 1, t.2)
    else
      (.error ("Failed to get past meeting: " ++ toString r.1 ++ " - " ++ r.2),
       1, t.2)

/-- Model of `getMeetingParticipants` (admin client): same shape as
`getPastMeeting`. -/
def getMeetingParticipantsFetch (creds : Option AdminCreds) (now : Int)
    (cache : TokenCache) (exchange : Except Nat OAuthTokenResponse)
    (net : Nat → Nat × String) : adminFetchResult :=
  let t := getAdminToken creds now cache exchange
  match t.1 with
  | .error e => (.error e, 0, t.2)
  | .ok _ =>
    let r := net 0
    if httpOk r.1 then (.ok r.2, 1, t.2)
    else
      (.error ("Failed to get participants: " ++ toString r.1 ++ " - " ++ r.2),
       1, t.2)

/-- Model of `getMeetingSummary`: same shape as `getPastMeeting`. -/
def getMeetingSummaryFetch (creds : Option AdminCreds) (now : Int)
    (cache : TokenCache) (exchange : Except Nat OAuthTokenResponse)
    (net : Nat → Nat × String) : adminFetchResult :=
  let t := getAdminToken creds now cache exchange
  match t.1 with
  | .error e => (.error e, 0, t.2)
  | .ok _ =>
    let r := net 0
    if httpOk r.1 then (.ok r.2, 1, t.2)
    else
      (.error
        ("Failed to get meeting summary: " ++ toString r.1 ++ " - " ++ r.2),
       1, t.2)

/-- Model of `getMeetingRecordings`: same shape as `getPastMeeting`. -/
def getMeetingRecordingsFetch (creds : Option AdminCreds) (now : Int)
    (cache : TokenCache) (exchange : Except Nat OAuthTokenResponse)
    (net : Nat → Nat × String) : adminFetchResult :=
  let t := getAdminToken creds now cache exchange
  match t.1 with
  | .error e => (.error e, 0, t.2)
  | .ok _ =>
    let r := net 0
    if httpOk r.1 then (.ok r.2, 1, t.2)
    else
      (.error ("Failed to get recordings: " ++ toString r.1 ++ " - " ++ r.2),
       1, t.2)

/-! ## Backfill importer (`scripts/backfill.ts`) -/

/-- One response the platform gives the backfill's fetch: status, the
optional `Retry-After` header, and the body. -/
structure BackfillResponse where
  status : Nat
  retryAfter : Option String
  body : String
deriving DecidableEq, Repr

/-- The wait `rateLimitedFetch` performs on a 429:
`parseInt(headers.get('Retry-After') || '5', 10)` seconds (a `NaN` or
negative value makes `setTimeout` fire immediately, i.e. wait 0). -/
def retrySeconds (r : BackfillResponse) : Nat :=
  match parseIntStr (jsOrS r.retryAfter "5") with
  | some t => t.toNat
  | none => 0

/-- Model of `rateLimitedFetch`: issue the request; on a 429 wait the mandated
delay and recurse with the same url and options.  `responses` is the
sequence of answers the platform gives to the successive attempts; the
result is the first non-429 response together with the list of requests
issued (each as its url/options pair) and the list of waits performed, in
seconds.  The inter-request pacing delay and the bearer-token acquisition
of the source do not affect the retry discipline and are elided. -/
def rateLimitedFetch (url options : String) :
    List BackfillResponse →
    Option (BackfillResponse × List (String × String) × List Nat)
  | [] => none
  | r :: rest =>
    if r.status == 429 then
      match rateLimitedFetch url options rest with
      | none => none
      | some (res, reqs, waits) =>
        some (res, (url, options) :: reqs, retrySeconds r :: waits)
    else some (r, [(url, options)], [])

/-- Modelled from the spec: the backoff the platform mandates — "the
number of seconds given by the Retry-After header (defaulting to 5 when
absent)". -/
def mandatedDelay (r : BackfillResponse) : Nat :=
  match r.retryAfter with
  | none => 5
  | some s =>
    match parseIntStr s with
    | some t => t.toNat
    | none => 0

/-! ## Association-list upsert lemmas -/

/-- After an upsert the key is present. -/
theorem assocSet_any_self (l : List (String × β)) (k : String) (v : β) :
    (assocSet l k v).any (fun e => e.1 == k) = true := by
  unfold assocSet
  by_cases h : l.any (fun e => e.1 == k) = true
  · rcases List.any_eq_true.mp h with ⟨x, hx, hpx⟩
    simp only [h, if_true]
    exact List.any_eq_true.mpr
      ⟨(k, v), List.mem_map.mpr ⟨x, hx, by simp [hpx]⟩, by simp⟩
  · simp only [h, if_false, List.any_append]
    simp

/-- An upsert never removes a present key. -/
theorem assocSet_any_mono (l : List (String × β)) (k k' : String) (v : β)
    (h : l.any (fun e => e.1 == k') = true) :
    (assocSet l k v).any (fun e => e.1 == k') = true := by
  unfold assocSet
  rcases List.any_eq_true.mp h with ⟨x, hx, hpx⟩
  by_cases hk : l.any (fun e => e.1 == k) = true
  · rw [if_pos hk]
    by_cases hxk : (x.1 == k) = true
    · refine List.any_eq_true.mpr ⟨(k, v), ?_, ?_⟩
      · exact List.mem_map.mpr ⟨x, hx, by simp [hxk]⟩
      · have hx1 : x.1 = k := beq_iff_eq.mp hxk
        show (k == k') = true
        rw [← hx1]
        exact hpx
    · refine List.any_eq_true.mpr ⟨x, ?_, hpx⟩
      exact List.mem_map.mpr ⟨x, hx, by simp [hxk]⟩
  · rw [if_neg hk, List.any_append, h]
    rfl

/-- Upserting makes the key-count 1 when the key was absent and leaves it
unchanged otherwise. -/
theorem countP_assocSet_self (l : List (String × β)) (k : String) (v : β) :
    (assocSet l k v).countP (fun e => e.1 == k) =
      if l.countP (fun e => e.1 == k) = 0 then 1
      else l.countP (fun e => e.1 == k) := by
  unfold assocSet
  by_cases h : l.any (fun e => e.1 == k) = true
  · rcases List.any_eq_true.mp h with ⟨x, hx, hpx⟩
    have hpos : 0 < l.countP (fun e => e.1 == k) :=
      List.countP_pos_iff.mpr ⟨x, hx, hpx⟩
    rw [if_pos h, List.countP_map]
    have hfun : ((fun e : String × β => e.1 == k) ∘
        fun e : String × β => if e.1 == k then (k, v) else e) =
        fun e : String × β => e.1 == k := by
      funext e
      by_cases he : (e.1 == k) = true
      · simp [Function.comp, he]
      · simp [Function.comp, he]
    rw [hfun, if_neg (by omega)]
  · have h0 : l.countP (fun e => e.1 == k) = 0 := by
      by_contra hne
      rcases List.countP_pos_iff.mp (Nat.pos_of_ne_zero hne) with ⟨a, ha, hpa⟩
      exact h (List.any_eq_true.mpr ⟨a, ha, hpa⟩)
    rw [if_neg h, List.countP_append, h0]
    simp

/-! ## Chunked-batch lemmas -/

/-- Flattening the chunking recovers the original list. -/
theorem chunksOfAux_flatten (n : Nat) (l : List α) :
    ∀ acc : List α, (chunksOfAux n acc l).flatten = acc.reverse ++ l := by
  induction l with
  | nil =>
    intro acc
    unfold chunksOfAux
    by_cases h : acc.isEmpty = true
    · simp [h, List.isEmpty_iff.mp h]
    · simp [h]
  | cons x xs ih =>
    intro acc
    unfold chunksOfAux
    by_cases h : acc.length + 1 = n
    · simp [h, ih []]
    · simp [h, ih (x :: acc)]

/-- Flattening the chunking recovers the original list. -/
theorem chunksOf_flatten (n : Nat) (l : List α) :
    (chunksOf n l).flatten = l := by
  simpa using chunksOfAux_flatten n l []

/-- Folding chunk-by-chunk equals folding the flattened list. -/
theorem foldl_chunks (f : β → α → β) (cs : List (List α)) :
    ∀ b : β, cs.foldl (fun a c => c.foldl f a) b = cs.flatten.foldl f b := by
  induction cs with
  | nil => intro b; rfl
  | cons c cs ih => intro b; simp [List.foldl_append, ih]

/-- The chunked batch write is the plain sequential upsert of all the
records. -/
theorem createParticipantRecordsBatch_eq_foldl (l : Ledger)
    (rs : List MeetingParticipantRecord) :
    createParticipantRecordsBatch l rs =
      rs.foldl
        (fun acc r =>
          ledgerSet acc (generateDocumentId r.instance_uuid r.participant_email)
            r)
        l := by
  unfold createParticipantRecordsBatch
  rw [foldl_chunks, chunksOf_flatten]

/-! ## Batched-delete lemmas (`deleteOldRecords`) -/

/-- Model of `removeFirstWhere` on the empty list. -/
theorem removeFirstWhere_nil (p : α → Bool) (n : Nat) :
    removeFirstWhere p n [] = [] := by
  cases n <;> rfl

/-- Model of `removeFirstWhere` removing zero entries. -/
theorem removeFirstWhere_zero (p : α → Bool) (l : List α) :
    removeFirstWhere p 0 l = l := by
  cases l <;> rfl

/-- Removing `n` matches lowers the match count by `n` (truncated). -/
theorem countP_removeFirstWhere (p : α → Bool) (l : List α) :
    ∀ n : Nat, (removeFirstWhere p n l).countP p = l.countP p - n := by
  induction l with
  | nil => intro n; simp [removeFirstWhere_nil]
  | cons x xs ih =>
    intro n
    cases n with
    | zero => simp [removeFirstWhere_zero]
    | succ m =>
      cases hp : p x with
      | true =>
        simp only [removeFirstWhere, hp, if_true]
        rw [ih m, List.countP_cons_of_pos _ _ hp]
        omega
      | false =>
        simp only [removeFirstWhere, hp, Bool.false_eq_true, if_false]
        rw [List.countP_cons_of_neg _ _ (by simp [hp]),
          List.countP_cons_of_neg _ _ (by simp [hp])]
        exact ih (m + 1)

/-- Removing matches leaves the non-matching entries untouched. -/
theorem filter_not_removeFirstWhere (p : α → Bool) (l : List α) :
    ∀ n : Nat,
      (removeFirstWhere p n l).filter (fun a => !p a) =
        l.filter (fun a => !p a) := by
  induction l with
  | nil => intro n; simp [removeFirstWhere_nil]
  | cons x xs ih =>
    intro n
    cases n with
    | zero => simp [removeFirstWhere_zero]
    | succ m =>
      cases hp : p x with
      | true =>
        simp only [removeFirstWhere, hp, if_true]
        rw [ih m, List.filter_cons_of_neg (by simp [hp])]
      | false =>
        simp only [removeFirstWhere, hp, Bool.false_eq_true, if_false]
        rw [List.filter_cons_of_pos (by simp [hp]),
          List.filter_cons_of_pos (by simp [hp]), ih (m + 1)]

/-- Length after removing the first `n` matches. -/
theorem length_removeFirstWhere (p : α → Bool) (l : List α) :
    ∀ n : Nat,
      (removeFirstWhere p n l).length = l.length - min n (l.countP p) := by
  induction l with
  | nil => intro n; simp [removeFirstWhere_nil]
  | cons x xs ih =>
    intro n
    cases n with
    | zero => simp [removeFirstWhere_zero]
    | succ m =>
      have hle := List.countP_le_length (p := p) (l := xs)
      cases hp : p x with
      | true =>
        simp only [removeFirstWhere, hp, if_true]
        rw [ih m, List.countP_cons_of_pos _ _ hp, List.length_cons]
        omega
      | false =>
        simp only [removeFirstWhere, hp, Bool.false_eq_true, if_false]
        rw [List.length_cons, ih (m + 1),
          List.countP_cons_of_neg _ _ (by simp [hp]), List.length_cons]
        omega

/-- When `n` covers every match, removal is exactly the filter of the
non-matching entries. -/
theorem removeFirstWhere_all (p : α → Bool) (l : List α) :
    ∀ n : Nat, l.countP p ≤ n →
      removeFirstWhere p n l = l.filter (fun a => !p a) := by
  induction l with
  | nil => intro n _; simp [removeFirstWhere_nil]
  | cons x xs ih =>
    intro n hn
    cases n with
    | zero =>
      have h0 : (x :: xs).countP p = 0 := Nat.le_zero.mp hn
      have hall : ∀ a ∈ x :: xs, (fun a => !p a) a = true := by
        intro a ha
        have hpa := List.countP_eq_zero.mp h0 a ha
        rw [Bool.not_eq_true] at hpa
        simp [hpa]
      rw [removeFirstWhere_zero]
      exact (List.filter_eq_self.mpr hall).symm
    | succ m =>
      cases hp : p x with
      | true =>
        simp only [removeFirstWhere, hp, if_true]
        rw [List.filter_cons_of_neg (by simp [hp])]
        refine ih m ?_
        rw [List.countP_cons_of_pos _ _ hp] at hn
        omega
      | false =>
        simp only [removeFirstWhere, hp, Bool.false_eq_true, if_false]
        rw [List.filter_cons_of_pos (by simp [hp])]
        refine congrArg (x :: ·) (ih (m + 1) ?_)
        rw [List.countP_cons_of_neg _ _ (by simp [hp])] at hn
        omega

/-- With fuel exceeding the ledger size, the delete loop removes exactly
the old records and counts them. -/
theorem deleteOldRecordsLoop_eq (c : String) :
    ∀ (fuel : Nat) (l : Ledger), l.length < fuel →
      deleteOldRecordsLoop c fuel l =
        (l.countP (recOlder c), l.filter (fun e => !recOlder c e)) := by
  intro fuel
  induction fuel with
  | zero => intro l h; exact absurd h (Nat.not_lt_zero _)
  | succ fuel ih =>
    intro l hl
    simp only [deleteOldRecordsLoop]
    by_cases h0 : ((l.filter (recOlder c)).take 500).length = 0
    · rw [if_pos h0]
      rw [List.length_take] at h0
      have hflen : (l.filter (recOlder c)).length = 0 := by omega
      have hfe : l.filter (recOlder c) = [] := List.length_eq_zero.mp hflen
      have hcount : l.countP (recOlder c) = 0 := by
        rw [List.countP_eq_length_filter, hflen]
      have hall : ∀ a ∈ l, (fun e => !recOlder c e) a = true := by
        intro a ha
        by_cases hpa : recOlder c a = true
        · have hmem : a ∈ l.filter (recOlder c) :=
            List.mem_filter.mpr ⟨ha, hpa⟩
          rw [hfe] at hmem
          exact absurd hmem (List.not_mem_nil a)
        · rw [Bool.not_eq_true] at hpa
          simp [hpa]
      rw [hcount, List.filter_eq_self.mpr hall]
    · rw [if_neg h0]
      have htake := List.length_take 500 (l.filter (recOlder c))
      by_cases hsmall : ((l.filter (recOlder c)).take 500).length < 500
      · rw [if_pos hsmall]
        have hflt : (l.filter (recOlder c)).length < 500 := by omega
        have hcnt : l.countP (recOlder c) =
            ((l.filter (recOlder c)).take 500).length := by
          rw [List.countP_eq_length_filter]
          omega
        rw [removeFirstWhere_all (recOlder c) l 500
          (by rw [List.countP_eq_length_filter]; omega), hcnt]
      · rw [if_neg hsmall]
        have hlen500 : ((l.filter (recOlder c)).take 500).length = 500 := by
          omega
        have hfge : 500 ≤ (l.filter (recOlder c)).length := by omega
        have hcge : 500 ≤ l.countP (recOlder c) := by
          rw [List.countP_eq_length_filter]
          omega
        have hfl_le : (l.filter (recOlder c)).length ≤ l.length :=
          List.length_filter_le _ _
        have hlrm : (removeFirstWhere (recOlder c) 500 l).length =
            l.length - min 500 (l.countP (recOlder c)) :=
          length_removeFirstWhere _ _ 500
        have hmin : min 500 (l.countP (recOlder c)) = 500 := by omega
        have hlt : (removeFirstWhere (recOlder c) 500 l).length < fuel := by
          omega
        rw [ih _ hlt, countP_removeFirstWhere, filter_not_removeFirstWhere,
          hlen500]
        have hsum : 500 + (l.countP (recOlder c) - 500) =
            l.countP (recOlder c) := by
          omega
        rw [hsum]

/-- Claim C5: after `deleteOldRecords(cutoff)` the ledger holds no record
with `start_time < cutoff`; the records with `start_time >= cutoff` are
exactly the survivors, unchanged and in order; the returned count equals
the number of records deleted (those with `start_time < cutoff`); and an
immediate second run with the same cutoff deletes zero records. -/
theorem deleteOldRecords_retention (cutoff : String) (l : Ledger) :
    (deleteOldRecords cutoff l).2.countP (recOlder cutoff) = 0 ∧
    (deleteOldRecords cutoff l).2 = l.filter (fun e => !recOlder cutoff e) ∧
    (deleteOldRecords cutoff l).1 = l.countP (recOlder cutoff) ∧
    deleteOldRecords cutoff (deleteOldRecords cutoff l).2 =
      (0, (deleteOldRecords cutoff l).2) := by
  unfold deleteOldRecords
  rw [deleteOldRecordsLoop_eq cutoff (l.length + 1) l (Nat.lt_succ_self _)]
  have hcount0 :
      (l.filter (fun e => !recOlder cutoff e)).countP (recOlder cutoff) =
        0 := by
    rw [List.countP_eq_zero]
    intro a ha hpa
    have hna := (List.mem_filter.mp ha).2
    rw [hpa] at hna
    exact absurd hna (by simp)
  have hfix : (l.filter (fun e => !recOlder cutoff e)).filter
      (fun e => !recOlder cutoff e) = l.filter (fun e => !recOlder cutoff e) :=
    List.filter_eq_self.mpr (fun a ha => (List.mem_filter.mp ha).2)
  refine ⟨hcount0, rfl, rfl, ?_⟩
  rw [deleteOldRecordsLoop_eq cutoff _ _ (Nat.lt_succ_self _), hcount0, hfix]

/-! ## Document-id derivation (claims C3 and C10) -/

/-- The derived key depends on the email only through its lowercasing. -/
theorem generateDocumentId_congr (u e1 e2 : String)
    (h : lowerStr e1 = lowerStr e2) :
    generateDocumentId u e1 = generateDocumentId u e2 := by
  unfold generateDocumentId
  rw [h]

/-- Upserting under a key makes its count 1 when absent, else keeps it. -/
theorem countKey_ledgerSet_self (l : Ledger) (k : String)
    (r : MeetingParticipantRecord) :
    countKey (ledgerSet l k r) k =
      if countKey l k = 0 then 1 else countKey l k := by
  unfold countKey ledgerSet
  exact countP_assocSet_self l k r

/-- Sequentially upserting records that all derive the same key leaves
exactly one entry under it (when any record was upserted at all). -/
theorem countKey_foldlSet (k : String) :
    ∀ (rs : List MeetingParticipantRecord) (l : Ledger),
      (∀ r ∈ rs, generateDocumentId r.instance_uuid r.participant_email = k) →
      countKey
        (rs.foldl
          (fun acc r =>
            ledgerSet acc
              (generateDocumentId r.instance_uuid r.participant_email) r)
          l) k =
        if rs.isEmpty then countKey l k
        else if countKey l k = 0 then 1 else countKey l k := by
  intro rs
  induction rs with
  | nil => intro l _; simp
  | cons r rs ih =>
    intro l hall
    have hr : generateDocumentId r.instance_uuid r.participant_email = k :=
      hall r (List.mem_cons_self r rs)
    simp only [List.foldl_cons, List.isEmpty_cons]
    rw [ih (ledgerSet l (generateDocumentId r.instance_uuid
        r.participant_email) r)
      (fun x hx => hall x (List.mem_cons_of_mem r hx))]
    rw [hr, countKey_ledgerSet_self]
    by_cases h0 : countKey l k = 0
    · simp [h0]
    · simp [h0]

/-- Claim C3: `generateDocumentId` is case-insensitive in the email
argument, and consequently batch-upserting any nonempty run of records
for one (occurrence, participant) pair — the email in any letter case,
as under redelivery of the same `meeting.ended` event — leaves exactly
one ledger record under that pair's key. -/
theorem generateDocumentId_case_insensitive (u e1 e2 : String)
    (hcase : lowerStr e1 = lowerStr e2) (l : Ledger)
    (rs : List MeetingParticipantRecord) (hne : rs ≠ [])
    (hrs : ∀ r ∈ rs,
      r.instance_uuid = u ∧ lowerStr r.participant_email = lowerStr e1)
    (h0 : countKey l (generateDocumentId u e1) = 0) :
    generateDocumentId u e1 = generateDocumentId u e2 ∧
    countKey (createParticipantRecordsBatch l rs)
      (generateDocumentId u e1) = 1 := by
  refine ⟨generateDocumentId_congr u e1 e2 hcase, ?_⟩
  rw [createParticipantRecordsBatch_eq_foldl]
  rw [countKey_foldlSet (generateDocumentId u e1) rs l ?hall]
  case hall =>
    intro r hr
    rcases hrs r hr with ⟨hu, hel⟩
    rw [hu]
    exact generateDocumentId_congr u _ e1 hel
  have hie : rs.isEmpty = false := by
    cases rs with
    | nil => exact absurd rfl hne
    | cons a as => rfl
  rw [hie, h0]
  rfl

/-- Claim C3 witness at concrete inputs. -/
theorem generateDocumentId_case_insensitive_witness :
    generateDocumentId "a" "Bob@X.com" = generateDocumentId "a" "bob@x.com" ∧
    countKey
      (createParticipantRecordsBatch []
        [{ instance_uuid := "a", meeting_id := "1", topic := "t",
           host_email := none, start_time := "2026-01-10T10:00:00Z",
           end_time := "2026-01-10T10:30:00Z", duration_minutes := 30,
           participant_email := "Bob@X.com", participant_name := "Bob",
           has_summary := true, has_recording := true,
           indexed_at := "2026-01-10T10:31:00Z",
           source := RecordSource.webhook },
         { instance_uuid := "a", meeting_id := "1", topic := "t",
           host_email := none, start_time := "2026-01-10T10:00:00Z",
           end_time := "2026-01-10T10:30:00Z", duration_minutes := 30,
           participant_email := "bob@x.com", participant_name := "Bob",
           has_summary := true, has_recording := true,
           indexed_at := "2026-01-10T10:31:00Z",
           source := RecordSource.webhook }])
      (generateDocumentId "a" "Bob@X.com") = 1 := by
  refine generateDocumentId_case_insensitive "a" "Bob@X.com" "bob@x.com"
    ?_ [] _ ?_ ?_ ?_
  · decide
  · decide
  · intro r hr
    simp only [List.mem_cons, List.not_mem_nil, or_false] at hr
    rcases hr with h | h <;> subst h <;> exact ⟨rfl, by decide⟩
  · rfl

/-- Claim C10: the uuid sanitization (replacing `/` with `_`) is not
injective, so two distinct occurrence ids that agree after sanitization
share every derived ledger key, for every email. -/
theorem generateDocumentId_uuid_collision :
    ("a/b" : String) ≠ "a_b" ∧
    ∀ e : String, generateDocumentId "a/b" e = generateDocumentId "a_b" e := by
  refine ⟨by decide, ?_⟩
  intro e
  simp only [generateDocumentId]
  have h1 : String.mk ("a/b".data.map (fun c => if c = '/' then '_' else c)) =
      "a_b" := by decide
  have h2 : String.mk ("a_b".data.map (fun c => if c = '/' then '_' else c)) =
      "a_b" := by decide
  rw [h1, h2]

/-! ## Host-record lemmas (claim C2) -/

/-- Every entry of an upserted list is an old entry or the upserted
pair. -/
theorem mem_assocSet {m : List (String × β)} {k : String} {v : β}
    {x : String × β} (hx : x ∈ assocSet m k v) : x ∈ m ∨ x = (k, v) := by
  unfold assocSet at hx
  by_cases h : m.any (fun e => e.1 == k) = true
  · rw [if_pos h] at hx
    rcases List.mem_map.mp hx with ⟨a, ha, hfa⟩
    by_cases hak : (a.1 == k) = true
    · right
      rw [← hfa]
      simp [hak]
    · left
      rw [← hfa]
      simpa [hak] using ha
  · rw [if_neg h] at hx
    rcases List.mem_append.mp hx with h1 | h1
    · left; exact h1
    · right; simpa using h1

/-- A present key survives a left fold whose steps never remove it. -/
theorem foldl_any_key_mono (k : String)
    (step : List (String × β) → γ → List (String × β))
    (hstep : ∀ m b, m.any (fun e => e.1 == k) = true →
      (step m b).any (fun e => e.1 == k) = true) :
    ∀ (xs : List γ) (m : List (String × β)),
      m.any (fun e => e.1 == k) = true →
      (xs.foldl step m).any (fun e => e.1 == k) = true := by
  intro xs
  induction xs with
  | nil => intro m hm; exact hm
  | cons x xs ih => intro m hm; exact ih (step m x) (hstep m x hm)

/-- A pointwise property survives a left fold whose steps preserve it. -/
theorem foldl_preserve_prop (P : String × β → Prop)
    (step : List (String × β) → γ → List (String × β))
    (hstep : ∀ m b, (∀ e ∈ m, P e) → ∀ e ∈ step m b, P e) :
    ∀ (xs : List γ) (m : List (String × β)),
      (∀ e ∈ m, P e) → ∀ e ∈ xs.foldl step m, P e := by
  intro xs
  induction xs with
  | nil => intro m hm; exact hm
  | cons x xs ih => intro m hm; exact ih (step m x) (hstep m x hm)

/-- The webhook-attendee step keeps the email-equals-key invariant. -/
theorem webhookParticipantStep_email_inv (m : List (String × ParticipantInfo))
    (p : ZoomWebhookParticipant) (hm : ∀ e ∈ m, e.2.email = e.1) :
    ∀ e ∈ webhookParticipantStep m p, e.2.email = e.1 := by
  intro e he
  unfold webhookParticipantStep at he
  cases hp : p.email with
  | none => simp only [hp] at he; exact hm e he
  | some e0 =>
    simp only [hp] at he
    by_cases h0 : e0.isEmpty = true
    · rw [if_pos h0] at he; exact hm e he
    · rw [if_neg h0] at he
      rcases mem_assocSet he with h1 | h1
      · exact hm e h1
      · rw [h1]

/-- The API-attendee step keeps the email-equals-key invariant. -/
theorem apiParticipantStep_email_inv (m : List (String × ParticipantInfo))
    (p : ZoomApiParticipant) (hm : ∀ e ∈ m, e.2.email = e.1) :
    ∀ e ∈ apiParticipantStep m p, e.2.email = e.1 := by
  intro e he
  unfold apiParticipantStep at he
  cases hp : p.user_email with
  | none => simp only [hp] at he; exact hm e he
  | some e0 =>
    simp only [hp] at he
    by_cases h0 : e0.isEmpty = true
    · rw [if_pos h0] at he; exact hm e he
    · rw [if_neg h0] at he
      rcases mem_assocSet he with h1 | h1
      · exact hm e h1
      · rw [h1]

/-- The host seed satisfies the email-equals-key invariant. -/
theorem seedHost_email_inv (meeting : ZoomMeetingObject) :
    ∀ e ∈ seedHost meeting, e.2.email = e.1 := by
  intro e he
  unfold seedHost at he
  cases hh : meeting.host_email with
  | none => simp only [hh] at he; exact absurd he (List.not_mem_nil e)
  | some h0 =>
    simp only [hh] at he
    by_cases hie : h0.isEmpty = true
    · rw [if_pos hie] at he; exact absurd he (List.not_mem_nil e)
    · rw [if_neg hie] at he
      rcases mem_assocSet he with h1 | h1
      · exact absurd h1 (List.not_mem_nil e)
      · rw [h1]

/-- In the collected participant map, each entry's stored email equals
its (lowercased) key. -/
theorem collectParticipants_email_inv (meeting : ZoomMeetingObject)
    (api : Except Unit ZoomParticipantsResponse) :
    ∀ e ∈ collectParticipants meeting api, e.2.email = e.1 := by
  unfold collectParticipants
  have hm2 := foldl_preserve_prop (fun e => e.2.email = e.1)
    webhookParticipantStep webhookParticipantStep_email_inv
    (meeting.participant.getD []) (seedHost meeting)
    (seedHost_email_inv meeting)
  cases api with
  | error u => exact hm2
  | ok resp =>
    exact foldl_preserve_prop (fun e => e.2.email = e.1)
      apiParticipantStep apiParticipantStep_email_inv resp.participants _ hm2

/-- The webhook-attendee step never removes a present key. -/
theorem webhookParticipantStep_key_mono (k : String)
    (m : List (String × ParticipantInfo)) (p : ZoomWebhookParticipant)
    (hm : m.any (fun e => e.1 == k) = true) :
    (webhookParticipantStep m p).any (fun e => e.1 == k) = true := by
  cases hp : p.email with
  | none => simp only [webhookParticipantStep, hp]; exact hm
  | some e0 =>
    simp only [webhookParticipantStep, hp]
    by_cases h0 : e0.isEmpty = true
    · rw [if_pos h0]; exact hm
    · rw [if_neg h0]; exact assocSet_any_mono m _ _ _ hm

/-- The API-attendee step never removes a present key. -/
theorem apiParticipantStep_key_mono (k : String)
    (m : List (String × ParticipantInfo)) (p : ZoomApiParticipant)
    (hm : m.any (fun e => e.1 == k) = true) :
    (apiParticipantStep m p).any (fun e => e.1 == k) = true := by
  cases hp : p.user_email with
  | none => simp only [apiParticipantStep, hp]; exact hm
  | some e0 =>
    simp only [apiParticipantStep, hp]
    by_cases h0 : e0.isEmpty = true
    · rw [if_pos h0]; exact hm
    · rw [if_neg h0]; exact assocSet_any_mono m _ _ _ hm

/-- When the payload carries a truthy `host_email`, the collected
participant map holds the lowercased host key. -/
theorem collectParticipants_host_any (meeting : ZoomMeetingObject)
    (api : Except Unit ZoomParticipantsResponse) (he : String)
    (hhost : meeting.host_email = some he) (hne : he ≠ "") :
    (collectParticipants meeting api).any
      (fun e => e.1 == lowerStr he) = true := by
  unfold collectParticipants
  have hie : ¬ he.isEmpty = true := by
    intro h
    exact hne ((String.isEmpty_iff he).mp h)
  have hm1 : (seedHost meeting).any (fun e => e.1 == lowerStr he) = true := by
    simp only [seedHost, hhost]
    rw [if_neg hie]
    exact assocSet_any_self [] (lowerStr he) _
  have hm2 := foldl_any_key_mono (lowerStr he) webhookParticipantStep
    (webhookParticipantStep_key_mono (lowerStr he))
    (meeting.participant.getD []) (seedHost meeting) hm1
  cases api with
  | error u => exact hm2
  | ok resp =>
    exact foldl_any_key_mono (lowerStr he) apiParticipantStep
      (apiParticipantStep_key_mono (lowerStr he)) resp.participants _ hm2

/-- After the sequential upsert of a record list, every listed record's
derived key is present. -/
theorem foldl_set_key_present :
    ∀ (rs : List MeetingParticipantRecord) (l : Ledger)
      (r : MeetingParticipantRecord), r ∈ rs →
      (rs.foldl
        (fun acc r2 =>
          ledgerSet acc
            (generateDocumentId r2.instance_uuid r2.participant_email) r2)
        l).any
        (fun e =>
          e.1 == generateDocumentId r.instance_uuid r.participant_email) =
        true := by
  intro rs
  induction rs with
  | nil => intro l r hr; exact absurd hr (List.not_mem_nil r)
  | cons r0 rs ih =>
    intro l r hr
    simp only [List.foldl_cons]
    rcases List.mem_cons.mp hr with h | h
    · subst h
      refine foldl_any_key_mono _ _ ?_ rs _ ?_
      · intro m b hm
        exact assocSet_any_mono m _ _ b hm
      · exact assocSet_any_self l _ r
    · exact ih _ r h

/-- The batch write of records built over the participant map stores a
record under the derived key of any present map key. -/
theorem batch_map_key_present (uuid : String)
    (participants : List (String × ParticipantInfo)) (k : String)
    (hmem : participants.any (fun e => e.1 == k) = true)
    (hinv : ∀ e ∈ participants, e.2.email = e.1)
    (f : String × ParticipantInfo → MeetingParticipantRecord)
    (hf_uuid : ∀ e, (f e).instance_uuid = uuid)
    (hf_email : ∀ e, (f e).participant_email = e.2.email) (l : Ledger) :
    (createParticipantRecordsBatch l (participants.map f)).any
      (fun e => e.1 == generateDocumentId uuid k) = true := by
  rcases List.any_eq_true.mp hmem with ⟨e, he, hek⟩
  have he1 : e.1 = k := beq_iff_eq.mp hek
  have hrec : f e ∈ participants.map f := List.mem_map_of_mem f he
  have h := foldl_set_key_present (participants.map f) l (f e) hrec
  rw [createParticipantRecordsBatch_eq_foldl]
  rwa [hf_uuid e, hf_email e, hinv e he, he1] at h

/-- When the payload carries a truthy `host_email`, processing the event
leaves the host entitled to the occurrence (a ledger record under the
(occurrence, lowercased host email) key exists), regardless of the
attendee lists. -/
theorem processMeetingEnded_host_record (event : ZoomWebhookEvent)
    (api : Except Unit ZoomParticipantsResponse)
    (det : Except Unit PastMeetingDetails) (nowIso : String) (l : Ledger)
    (he : String) (hhost : event.payload.object.host_email = some he)
    (hne : he ≠ "") :
    checkParticipation (processMeetingEnded event api det nowIso l)
      event.payload.object.uuid he = true := by
  have hany := collectParticipants_host_any event.payload.object api he
    hhost hne
  have hinv := collectParticipants_email_inv event.payload.object api
  simp only [checkParticipation, participantRecordExists,
    processMeetingEnded]
  exact batch_map_key_present event.payload.object.uuid _ (lowerStr he)
    hany hinv _ (fun e => rfl) (fun e => rfl) l

/-- Claim C2: a successfully processed `meeting.ended` event whose
payload omits `host_email` can leave the host without any participation
record, even though the host's email is known from the meeting-details
API call — here the payload has no attendees, the participants API call
fails, the details call succeeds and names the host `alice@x.com`, yet
the ledger stays empty, so no record keyed by (occurrence, host email)
exists.  This contradicts the host-always-present invariant the code's
own comment states ("Always add the host first"). -/
theorem processMeetingEnded_missing_host :
    processMeetingEnded
      ⟨"meeting.ended",
       ⟨none,
        ⟨"U1", "123", "Standup", none, none, "2026-01-10T10:00:00Z",
         some "2026-01-10T10:30:00Z", some 30, some []⟩⟩⟩
      (Except.error ())
      (Except.ok
        ⟨some "2026-01-10T10:30:00Z", some 30, some "alice@x.com"⟩)
      "2026-01-10T10:31:00Z" [] = [] ∧
    checkParticipation
      (processMeetingEnded
        ⟨"meeting.ended",
         ⟨none,
          ⟨"U1", "123", "Standup", none, none, "2026-01-10T10:00:00Z",
           some "2026-01-10T10:30:00Z", some 30, some []⟩⟩⟩
        (Except.error ())
        (Except.ok
          ⟨some "2026-01-10T10:30:00Z", some 30, some "alice@x.com"⟩)
        "2026-01-10T10:31:00Z" []) "U1" "alice@x.com" = false := by
  exact ⟨rfl, rfl⟩

/-! ## Authorization boundary (claim C1) -/

/-- Claim C1: a caller whose bearer token validates to a non-admin and
who has no ledger record for the requested occurrence receives an
authorization denial (HTTP 403) with no meeting content from get-summary
and get-transcript; and the same caller naming another user's email, or
setting `all_meetings`, is denied (403) by list-meetings — never content
and never a bare 404. -/
theorem authorization_boundary (authHeader : Option String)
    (usersMe : UsersMeResult) (ui : UserInfo)
    (hbear : (extractBearerToken authHeader).isSome = true)
    (hv : validateUserToken usersMe = Except.ok ui)
    (hadmin : ui.isAdmin = false) (uuid : String) (huuid : uuid ≠ "")
    (ledger : Ledger) (hnp : checkParticipation ledger uuid ui.email = false)
    (fetchSummary : Except Nat String)
    (recordings : Except Nat ZoomRecordingResponse)
    (download : Except Nat String) (todayDate thirtyAgoDate : String)
    (ue : String) (hother : lowerStr ue ≠ lowerStr ui.email)
    (hue : ue ≠ "") :
    (handleGetSummary authHeader usersMe ⟨some uuid⟩ ledger fetchSummary =
        .accessDenied ∧
      (handleGetSummary authHeader usersMe ⟨some uuid⟩ ledger
          fetchSummary).toStatus = 403 ∧
      (handleGetSummary authHeader usersMe ⟨some uuid⟩ ledger
          fetchSummary).hasContent = false) ∧
    (handleGetTranscript authHeader usersMe ⟨some uuid⟩ ledger recordings
        download fetchSummary = .accessDenied ∧
      (handleGetTranscript authHeader usersMe ⟨some uuid⟩ ledger recordings
          download fetchSummary).toStatus = 403 ∧
      (handleGetTranscript authHeader usersMe ⟨some uuid⟩ ledger recordings
          download fetchSummary).hasContent = false) ∧
    (∀ p : ListMeetingsRequest, p.user_email = some ue →
      handleListMeetings authHeader usersMe p todayDate thirtyAgoDate
          ledger = .adminRequiredForUser ∧
      (handleListMeetings authHeader usersMe p todayDate thirtyAgoDate
          ledger).toStatus = 403 ∧
      (handleListMeetings authHeader usersMe p todayDate thirtyAgoDate
          ledger).hasContent = false) ∧
    (∀ p : ListMeetingsRequest, jsTruthyS p.user_email = false →
      p.all_meetings = some true →
      handleListMeetings authHeader usersMe p todayDate thirtyAgoDate
          ledger = .adminRequiredForAll ∧
      (handleListMeetings authHeader usersMe p todayDate thirtyAgoDate
          ledger).toStatus = 403 ∧
      (handleListMeetings authHeader usersMe p todayDate thirtyAgoDate
          ledger).hasContent = false) := by
  obtain ⟨tok, htok⟩ := Option.isSome_iff_exists.mp hbear
  have hie : uuid.isEmpty = false := by
    cases h : uuid.isEmpty with
    | false => rfl
    | true => exact absurd ((String.isEmpty_iff uuid).mp h) huuid
  have hgate : (!ui.isAdmin && !checkParticipation ledger uuid ui.email) =
      true := by
    rw [hadmin, hnp]
    rfl
  have hs : handleGetSummary authHeader usersMe ⟨some uuid⟩ ledger
      fetchSummary = .accessDenied := by
    simp only [handleGetSummary, htok, hv, jsTruthyS, hie, Option.getD,
      Bool.not_false, Bool.not_true, Bool.false_eq_true, if_false, if_true,
      hgate]
  have ht : handleGetTranscript authHeader usersMe ⟨some uuid⟩ ledger
      recordings download fetchSummary = .accessDenied := by
    simp only [handleGetTranscript, htok, hv, jsTruthyS, hie, Option.getD,
      Bool.not_false, Bool.not_true, Bool.false_eq_true, if_false, if_true,
      hgate]
  refine ⟨⟨hs, by rw [hs]; rfl, by rw [hs]; rfl⟩,
    ⟨ht, by rw [ht]; rfl, by rw [ht]; rfl⟩, ?_, ?_⟩
  · intro p hp
    have hueT : jsTruthyS p.user_email = true := by
      rw [hp]
      simp only [jsTruthyS]
      cases h : ue.isEmpty with
      | false => rfl
      | true => exact absurd ((String.isEmpty_iff ue).mp h) hue
    have hl : handleListMeetings authHeader usersMe p todayDate
        thirtyAgoDate ledger = .adminRequiredForUser := by
      simp only [handleListMeetings, htok, hv, hueT, hadmin, Bool.not_false,
        if_true]
    exact ⟨hl, by rw [hl]; rfl, by rw [hl]; rfl⟩
  · intro p hp1 hp2
    have hl : handleListMeetings authHeader usersMe p todayDate
        thirtyAgoDate ledger = .adminRequiredForAll := by
      simp only [handleListMeetings, htok, hv, hp1, hp2, hadmin,
        Bool.not_false, Option.getD, if_true, if_false, Bool.false_eq_true]
    exact ⟨hl, by rw [hl]; rfl, by rw [hl]; rfl⟩

/-- Claim C1 witness: the non-admin `carol@x.com` with an empty ledger is
denied on all three endpoints at concrete inputs. -/
theorem authorization_boundary_witness :
    handleGetSummary (some "Bearer tok") ⟨200, ⟨"carol@x.com", "2"⟩⟩
        ⟨some "U1"⟩ [] (Except.error 500) = .accessDenied ∧
    handleGetTranscript (some "Bearer tok") ⟨200, ⟨"carol@x.com", "2"⟩⟩
        ⟨some "U1"⟩ [] (Except.error 500) (Except.error 500)
        (Except.error 500) = .accessDenied ∧
    handleListMeetings (some "Bearer tok") ⟨200, ⟨"carol@x.com", "2"⟩⟩
        ⟨none, none, none, some "alice@x.com", none⟩ "2026-01-17"
        "2025-12-18" [] = .adminRequiredForUser ∧
    handleListMeetings (some "Bearer tok") ⟨200, ⟨"carol@x.com", "2"⟩⟩
        ⟨none, none, none, none, some true⟩ "2026-01-17" "2025-12-18" [] =
      .adminRequiredForAll := by
  have h := authorization_boundary (some "Bearer tok")
    ⟨200, ⟨"carol@x.com", "2"⟩⟩ ⟨"carol@x.com", some 2, false⟩ (by decide)
    rfl rfl "U1" (by decide) [] (by decide) (Except.error 500)
    (Except.error 500) (Except.error 500) "2026-01-17" "2025-12-18"
    "alice@x.com" (by decide) (by decide)
  exact ⟨h.1.1, h.2.1.1,
    (h.2.2.1 ⟨none, none, none, some "alice@x.com", none⟩ rfl).1,
    (h.2.2.2 ⟨none, none, none, none, some true⟩ rfl rfl).1⟩

/-! ## Webhook signature rejection (claim C4) -/

/-- Claim C4: with the webhook configured (POST, secret set), a request
whose timestamp is more than 300 seconds from the current time, or whose
signature header differs from the recomputed
`'v0=' + HMAC-SHA256('v0:<timestamp>:<raw-body>', secret)`, is answered
with the 401 signature rejection and the ledger is left untouched. -/
theorem webhook_signature_rejection (secret rawBody : String)
    (hsec : secret ≠ "") (signature timestamp : Option String)
    (event : ZoomWebhookEvent) (nowSec : Int)
    (api : Except Unit ZoomParticipantsResponse)
    (det : Except Unit PastMeetingDetails) (nowIso : String)
    (ledger : Ledger) :
    (∀ ts t, timestamp = some ts → parseIntStr ts = some t →
      (nowSec - t).natAbs > 300 →
      handleWebhook (some secret) "POST" rawBody signature timestamp event
        nowSec api det nowIso ledger = (.invalidSignature, ledger)) ∧
    (∀ ts sig, timestamp = some ts → signature = some sig →
      sig ≠ "v0=" ++ hmacSha256Hex secret ("v0:" ++ ts ++ ":" ++ rawBody) →
      handleWebhook (some secret) "POST" rawBody signature timestamp event
        nowSec api det nowIso ledger = (.invalidSignature, ledger)) ∧
    WebhookResult.status .invalidSignature = 401 := by
  have hsecE : secret.isEmpty = false := by
    cases h : secret.isEmpty with
    | false => rfl
    | true => exact absurd ((String.isEmpty_iff secret).mp h) hsec
  have hred : ∀ sg tm : Option String,
      validateWebhookSignature sg tm rawBody secret nowSec = false →
      handleWebhook (some secret) "POST" rawBody sg tm event nowSec api det
        nowIso ledger = (.invalidSignature, ledger) := by
    intro sg tm hval
    simp only [handleWebhook, hval, jsTruthyS, hsecE, Option.getD, ne_eq,
      not_true_eq_false, Bool.not_true, Bool.not_false, Bool.false_eq_true,
      if_false, if_true]
  refine ⟨?_, ?_, rfl⟩
  · intro ts t hts hpt habs
    subst hts
    refine hred signature (some ts) ?_
    cases signature with
    | none => rfl
    | some sig =>
      have htsE : ts.isEmpty = false := by
        cases h : ts.isEmpty with
        | false => rfl
        | true =>
          rw [(String.isEmpty_iff ts).mp h] at hpt
          rw [show parseIntStr "" = none from rfl] at hpt
          exact Option.noConfusion hpt
      have htoo : (match parseIntStr ts with
          | some t2 => decide ((nowSec - t2).natAbs > 5 * 60)
          | none => false) = true := by
        rw [hpt]
        exact decide_eq_true habs
      by_cases hsigE : sig.isEmpty = true
      · simp [validateWebhookSignature, hsigE]
      · simp [validateWebhookSignature, hsigE, htsE, htoo]
  · intro ts sig hts hsig hneq
    subst hts
    subst hsig
    refine hred (some sig) (some ts) ?_
    have hexp : (sig ==
        "v0=" ++ hmacSha256Hex secret ("v0:" ++ ts ++ ":" ++ rawBody)) =
        false := beq_eq_false_iff_ne.mpr hneq
    by_cases hsigE : sig.isEmpty = true
    · simp [validateWebhookSignature, hsigE]
    · by_cases htsE : ts.isEmpty = true
      · simp [validateWebhookSignature, hsigE, htsE]
      · by_cases htoo : (match parseIntStr ts with
            | some t2 => decide ((nowSec - t2).natAbs > 5 * 60)
            | none => false) = true
        · simp [validateWebhookSignature, hsigE, htsE, htoo]
        · by_cases hlen : (strBytes sig).length =
              (strBytes ("v0=" ++ hmacSha256Hex secret
                ("v0:" ++ ts ++ ":" ++ rawBody))).length
          · simp [validateWebhookSignature, hsigE, htsE, htoo, hlen, hexp]
          · simp [validateWebhookSignature, hsigE, htsE, htoo, hlen]

/-- Claim C4 witness: a stale timestamp (100000 s vs 0 s) is rejected
with no ledger write at a concrete input. -/
theorem webhook_signature_rejection_witness :
    handleWebhook (some "sec") "POST" "{}" none (some "0")
      ⟨"evt", ⟨none, ⟨"u", "1", "t", none, none, "s", none, none, none⟩⟩⟩
      100000 (Except.error ()) (Except.error ()) "now"
      [] = (.invalidSignature, []) := by
  exact (webhook_signature_rejection "sec" "{}" (by decide) none (some "0")
    ⟨"evt", ⟨none, ⟨"u", "1", "t", none, none, "s", none, none, none⟩⟩⟩
    100000 (Except.error ()) (Except.error ()) "now" []).1 "0" 0 rfl
    (by decide) (by decide)

/-! ## Admin-token refresh (claim C6) -/

/-- Claim C6 counterexample: `getAdminToken` has no single-flight guard,
so from an empty cache two concurrent callers can both pass the validity
check and both have a token-exchange request in flight at once — the
interleaving where A checks, then B checks before A's fetch resolves. -/
theorem getAdminToken_concurrent_double_refresh :
    ∃ s : TokenRaceState,
      Relation.ReflTransGen (tokenStep 0 ⟨"tok", 3600⟩)
        ⟨⟨none, 0⟩, .ready, .ready⟩ s ∧
      s.pcA = .fetching ∧ s.pcB = .fetching := by
  refine ⟨⟨⟨none, 0⟩, .fetching, .fetching⟩, ?_, rfl, rfl⟩
  have hinvalid : tokenCacheValid 0 ⟨none, 0⟩ = false := rfl
  exact Relation.ReflTransGen.tail
    (Relation.ReflTransGen.single (tokenStep.missA ⟨none, 0⟩ .ready hinvalid))
    (tokenStep.missB ⟨none, 0⟩ .fetching hinvalid)

/-- Claim C6 (amended): within one sequential call, `getAdminToken`
returns the cached token with no token-exchange request while the cache
is valid (truthy token, expiry more than 5 minutes away), issues at most
one exchange request, and issues one only when the cache was invalid. -/
theorem getAdminToken_refresh_guard (creds : Option AdminCreds) (now : Int)
    (cache : TokenCache) (exchange : Except Nat OAuthTokenResponse) :
    (tokenCacheValid now cache = true →
      getAdminToken creds now cache exchange =
        (.ok (cache.cachedToken.getD "", cache), 0)) ∧
    ((getAdminToken creds now cache exchange).2 = 0 ∨
      (getAdminToken creds now cache exchange).2 = 1) ∧
    ((getAdminToken creds now cache exchange).2 ≠ 0 →
      tokenCacheValid now cache = false) := by
  unfold getAdminToken
  by_cases hv : tokenCacheValid now cache = true
  · rw [if_pos hv]
    exact ⟨fun _ => rfl, Or.inl rfl, fun h => absurd rfl h⟩
  · rw [if_neg hv]
    have hvf : tokenCacheValid now cache = false :=
      Bool.not_eq_true _ |>.mp hv
    refine ⟨fun h => absurd h hv, ?_, fun _ => hvf⟩
    cases creds with
    | none => exact Or.inl rfl
    | some c =>
      cases exchange with
      | error st => exact Or.inr rfl
      | ok d => exact Or.inr rfl

/-- Claim C6 witness: with a valid cached token (`expiry` far beyond the
margin) the call returns the cached token and issues no exchange. -/
theorem getAdminToken_refresh_guard_witness :
    getAdminToken (some ⟨"acc", "cid", "csec"⟩) 0
      ⟨some "tok", 1000000000⟩ (Except.error 500) =
      (.ok ("tok", ⟨some "tok", 1000000000⟩), 0) := by
  exact (getAdminToken_refresh_guard (some ⟨"acc", "cid", "csec"⟩) 0
    ⟨some "tok", 1000000000⟩ (Except.error 500)).1 (by decide)

/-! ## Admin-client fetches on 401/403 (claim C7) -/

/-- Claim C7 counterexample: with a valid cached admin token, a 401
response to `getPastMeeting` (and to the other three fetch operations)
makes the call throw at once — one request to the endpoint, zero
token-exchange requests — instead of the claimed single forced refresh
followed by one retry (which would be two requests and one exchange). -/
theorem adminFetch_401_no_retry_counterexample :
    getPastMeeting (some ⟨"acc", "cid", "csec"⟩) 0 ⟨some "tok", 1000000000⟩
        (Except.error 500) (fun _ => (401, "unauthorized")) =
      (.error "Failed to get past meeting: 401 - unauthorized", 1, 0) ∧
    getMeetingParticipantsFetch (some ⟨"acc", "cid", "csec"⟩) 0
        ⟨some "tok", 1000000000⟩ (Except.error 500)
        (fun _ => (401, "unauthorized")) =
      (.error "Failed to get participants: 401 - unauthorized", 1, 0) ∧
    getMeetingSummaryFetch (some ⟨"acc", "cid", "csec"⟩) 0
        ⟨some "tok", 1000000000⟩ (Except.error 500)
        (fun _ => (403, "forbidden")) =
      (.error "Failed to get meeting summary: 403 - forbidden", 1, 0) ∧
    getMeetingRecordingsFetch (some ⟨"acc", "cid", "csec"⟩) 0
        ⟨some "tok", 1000000000⟩ (Except.error 500)
        (fun _ => (403, "forbidden")) =
      (.error "Failed to get recordings: 403 - forbidden", 1, 0) ∧
    (getPastMeeting (some ⟨"acc", "cid", "csec"⟩) 0 ⟨some "tok", 1000000000⟩
        (Except.error 500) (fun _ => (401, "unauthorized"))).2 ≠ (2, 1) := by
  exact ⟨rfl, rfl, rfl, rfl, by decide⟩

/-- Claim C7 (amended): whenever the admin token is available (cached or
freshly exchanged) and the endpoint answers non-2xx — in particular 401
or 403 — each fetch operation throws immediately: exactly one request is
issued, no forced token refresh happens (the exchange count is exactly
what the expiry rule already produced), and there is no retry. -/
theorem adminFetch_throws_without_retry (creds : Option AdminCreds)
    (now : Int) (cache : TokenCache)
    (exchange : Except Nat OAuthTokenResponse) (net : Nat → Nat × String)
    (tc : String × TokenCache)
    (hok : (getAdminToken creds now cache exchange).1 = .ok tc)
    (hbad : httpOk (net 0).1 = false) :
    getPastMeeting creds now cache exchange net =
      (.error ("Failed to get past meeting: " ++ toString (net 0).1 ++
        " - " ++ (net 0).2), 1, (getAdminToken creds now cache exchange).2) ∧
    getMeetingParticipantsFetch creds now cache exchange net =
      (.error ("Failed to get participants: " ++ toString (net 0).1 ++
        " - " ++ (net 0).2), 1, (getAdminToken creds now cache exchange).2) ∧
    getMeetingSummaryFetch creds now cache exchange net =
      (.error ("Failed to get meeting summary: " ++ toString (net 0).1 ++
        " - " ++ (net 0).2), 1, (getAdminToken creds now cache exchange).2) ∧
    getMeetingRecordingsFetch creds now cache exchange net =
      (.error ("Failed to get recordings: " ++ toString (net 0).1 ++
        " - " ++ (net 0).2), 1, (getAdminToken creds now cache exchange).2) := by
  refine ⟨?_, ?_, ?_, ?_⟩
  · simp only [getPastMeeting, hok, hbad, Bool.false_eq_true, if_false]
  · simp only [getMeetingParticipantsFetch, hok, hbad, Bool.false_eq_true,
      if_false]
  · simp only [getMeetingSummaryFetch, hok, hbad, Bool.false_eq_true,
      if_false]
  · simp only [getMeetingRecordingsFetch, hok, hbad, Bool.false_eq_true,
      if_false]

/-- Claim C7 (amended) witness at a concrete 401 response. -/
theorem adminFetch_throws_without_retry_witness :
    getPastMeeting (some ⟨"acc", "cid", "csec"⟩) 0 ⟨some "tok", 1000000000⟩
        (Except.error 500) (fun _ => (401, "unauthorized")) =
      (.error "Failed to get past meeting: 401 - unauthorized", 1, 0) := by
  exact (adminFetch_throws_without_retry (some ⟨"acc", "cid", "csec"⟩) 0
    ⟨some "tok", 1000000000⟩ (Except.error 500)
    (fun _ => (401, "unauthorized")) ("tok", ⟨some "tok", 1000000000⟩) rfl
    rfl).1

/-! ## Backfill rate-limit retry (claim C8) -/

/-- Claim C8: when the platform answers a run of 429s followed by a
non-429 response, `rateLimitedFetch` waits `parseInt(Retry-After || '5')`
seconds after every 429 (the spec-mandated delay — 5 when the header is
absent), reissues the identical request each time, and hands its caller
exactly that first non-429 response: one request per response, none
dropped. -/
theorem rateLimitedFetch_retries (url opts : String)
    (pre : List BackfillResponse) (r : BackfillResponse)
    (rest : List BackfillResponse) (h429 : ∀ x ∈ pre, x.status = 429)
    (hr : r.status ≠ 429) :
    rateLimitedFetch url opts (pre ++ r :: rest) =
      some (r, List.replicate (pre.length + 1) (url, opts),
        pre.map retrySeconds) ∧
    (∀ x : BackfillResponse, x.retryAfter ≠ some "" →
      retrySeconds x = mandatedDelay x) := by
  constructor
  · induction pre with
    | nil =>
      have hbeq : (r.status == 429) = false := beq_eq_false_iff_ne.mpr hr
      simp only [List.nil_append, rateLimitedFetch, hbeq,
        Bool.false_eq_true, if_false, List.length_nil, List.map_nil,
        List.replicate]
    | cons x pre ih =>
      have hx : (x.status == 429) = true :=
        beq_iff_eq.mpr (h429 x (List.mem_cons_self x pre))
      have ih2 := ih (fun y hy => h429 y (List.mem_cons_of_mem x hy))
      have ih3 : rateLimitedFetch url opts (List.append pre (r :: rest)) =
          some (r, List.replicate (pre.length + 1) (url, opts),
            List.map retrySeconds pre) := ih2
      simp only [List.cons_append, rateLimitedFetch, hx, if_true,
        List.length_cons, List.map_cons]
      rw [ih3]
      rfl
  · intro x hx
    cases hxa : x.retryAfter with
    | none => simp only [retrySeconds, mandatedDelay, hxa]; rfl
    | some s =>
      have hs : s ≠ "" := by
        intro h
        rw [h] at hxa
        exact hx hxa
      have hsE : s.isEmpty = false := by
        cases h : s.isEmpty with
        | false => rfl
        | true => exact absurd ((String.isEmpty_iff s).mp h) hs
      simp only [retrySeconds, mandatedDelay, hxa, jsOrS, jsTruthyS, hsE,
        Bool.not_false, if_true, Option.getD]

/-- Claim C8 witness: two 429s (Retry-After 7, then absent) and a 200 —
the call waits 7s then 5s, issues the same request three times, and
returns the 200. -/
theorem rateLimitedFetch_retries_witness :
    rateLimitedFetch "https://api.zoom.us/v2/users" "opts"
      [⟨429, some "7", "rl"⟩, ⟨429, none, "rl"⟩, ⟨200, none, "ok"⟩] =
      some (⟨200, none, "ok"⟩,
        [("https://api.zoom.us/v2/users", "opts"),
         ("https://api.zoom.us/v2/users", "opts"),
         ("https://api.zoom.us/v2/users", "opts")], [7, 5]) := by
  have h := (rateLimitedFetch_retries "https://api.zoom.us/v2/users" "opts"
    [⟨429, some "7", "rl"⟩, ⟨429, none, "rl"⟩] ⟨200, none, "ok"⟩ []
    (by decide) (by decide)).1
  exact h.trans (by decide)

/-! ## Validation-challenge round trip (claim C9)

The two known-answer theorems pin the embedded hash pipeline to the FIPS
180-4 / RFC 4231 test vectors, so `hmacSha256Hex` below really is
HMAC-SHA256.
-/

set_option maxRecDepth 100000 in
set_option maxHeartbeats 1000000 in
/-- FIPS 180-4 test vector: SHA-256 of `"abc"`. -/
theorem sha256HexOfString_known_answer :
    sha256HexOfString "abc" =
      "ba7816bf8f01cfea414140de5dae2223b00361a396177a9cb410ff61f20015ad" := by
  decide

set_option maxRecDepth 100000 in
set_option maxHeartbeats 4000000 in
/-- RFC 4231 test case 2: HMAC-SHA256 with key `"Jefe"`. -/
theorem hmacSha256Hex_known_answer :
    hmacSha256Hex "Jefe" "what do ya want for nothing?" =
      "5bdcc146bf60754e6a042426089575c75a003f089d2739839dec58b964ec3843" := by
  decide

/-- Claim C9: for every challenge token and secret,
`createValidationResponse` answers with exactly the same token and with
the hexadecimal HMAC-SHA256 digest of the token under the secret — the
digest an independent computation of `hmacSha256Hex` (pinned to the
RFC 4231 vectors above) produces with the same secret and algorithm. -/
theorem createValidationResponse_roundtrip (t s : String) :
    createValidationResponse t s =
      { plainToken := t, encryptedToken := hmacSha256Hex s t } ∧
    (createValidationResponse t s).plainToken = t ∧
    (createValidationResponse t s).encryptedToken = hmacSha256Hex s t :=
  ⟨rfl, rfl, rfl⟩

end ZoomMcp
